import Mathlib

/-!
Verification development for the repomap-core static-analysis engine.

The Lean definitions below are shallow embeddings of the Python source:
`rules/layers.py`, `utils.py`, `graph/algos.py`, `parse/name_resolution.py`,
`parse/treesitter_calls.py`, and the artifact generators
(`calls_raw.py`, `refs.py`, `calls.py`, `deps.py`).  Pure functions become
Lean functions; Python dicts that are only read by key become functions
`String → Option _`; dicts that are iterated become association lists in
insertion order; Python string operations (`strip`, `split`, `startswith`,
`endswith`, `fnmatch`) are translated as executable functions on `String`.
-/

namespace Repomap

/-- Python `str.strip()` on the underlying character list: drop leading and
trailing whitespace. -/
def stripList (l : List Char) : List Char :=
  ((l.dropWhile Char.isWhitespace).reverse.dropWhile Char.isWhitespace).reverse

/-- Python `str.strip()`. -/
def pyStrip (s : String) : String :=
  String.mk (stripList s.data)

/-- Python `str.startswith(pre)`. -/
def pyStartsWith (s pre : String) : Bool :=
  pre.data.isPrefixOf s.data

/-- Python `str.endswith(suf)`. -/
def pyEndsWith (s suf : String) : Bool :=
  suf.data.isSuffixOf s.data

/-- Python `str.split(sep)` for a one-character separator, on character
lists: empty pieces are kept, and splitting the empty string yields one
empty piece. -/
def splitCharList (sep : Char) : List Char → List (List Char)
  | [] => [[]]
  | c :: cs =>
    let r := splitCharList sep cs
    if c = sep then [] :: r
    else
      match r with
      | h :: t => (c :: h) :: t
      | [] => [[c]]

/-- Python `str.split(sep)` for a one-character separator. -/
def pySplitChar (s : String) (sep : Char) : List String :=
  (splitCharList sep s.data).map String.mk

/-- Python `s[:-n]`: drop the last `n` characters. -/
def pyDropRight (s : String) (n : Nat) : String :=
  String.mk (s.data.take (s.data.length - n))

/-- Lexicographic strict comparison of character lists by Unicode code
point (Python string `<`). -/
def charListLt : List Char → List Char → Bool
  | [], [] => false
  | [], _ :: _ => true
  | _ :: _, [] => false
  | a :: as, b :: bs =>
    if a.toNat < b.toNat then true
    else if b.toNat < a.toNat then false
    else charListLt as bs

/-- Python string `<`. -/
def pyStrLt (a b : String) : Bool := charListLt a.data b.data

/-- Python string `≤`. -/
def pyStrLe (a b : String) : Bool := pyStrLt a b || a == b

/-- Index of the first occurrence of `needle` in `hay`, starting count at
`i` (Python `str.find`). -/
def findSubstrAux (needle : List Char) : List Char → Nat → Option Nat
  | [], i => if needle.isEmpty then some i else none
  | c :: rest, i =>
    if needle.isPrefixOf (c :: rest) then some i
    else findSubstrAux needle rest (i + 1)

/-- Lexicographic `≤` used by Python `sorted` on pairs of strings. -/
def strPairLe (a b : String × String) : Bool :=
  if a.1 ≠ b.1 then pyStrLt a.1 b.1 else pyStrLe a.2 b.2

/-- One step of stable insertion sort: insert `a` before the first element
`b` with `le a b`. -/
def pyOrderedInsert (le : α → α → Bool) (a : α) : List α → List α
  | [] => [a]
  | b :: l => if le a b then a :: b :: l else b :: pyOrderedInsert le a l

/-- Stable insertion sort; for a total preorder `le` this produces the same
list as Python's stable `sorted`/`list.sort`. -/
def pySorted (le : α → α → Bool) : List α → List α
  | [] => []
  | a :: l => pyOrderedInsert le a (pySorted le l)

/-- Sort key `≤` comparing only the first component (Python `sorted` over
`dict.items()`, whose keys are unique). -/
def strPairLeFst {β : Type} (a b : String × β) : Bool :=
  pyStrLe a.1 b.1

/-! ## fnmatch glob matching (`fnmatch.fnmatch`, POSIX case rules)

`classify_layer` matches paths against glob patterns with `*` (any run of
characters, including `/`), `?` (any one character) and `[...]` character
classes with ranges and `!` negation. -/

/-- Scan a `[...]` character-class body up to the first unconsumed `]`:
returns the class contents and the remainder of the pattern after the
closing `]`. -/
def takeClassAux : List Char → Option (List Char × List Char)
  | [] => none
  | c :: rest =>
    if c = ']' then some ([], rest)
    else
      match takeClassAux rest with
      | some (cs, rem) => some (c :: cs, rem)
      | none => none

/-- Parse the body of a `[...]` character class.  A `]` in first position is
literal, mirroring `fnmatch.translate`. -/
def takeClass (l : List Char) : Option (List Char × List Char) :=
  match l with
  | [] => none
  | c :: rest =>
    if c = ']' then
      match takeClassAux rest with
      | some (cs, rem) => some (']' :: cs, rem)
      | none => none
    else takeClassAux (c :: rest)

/-- Membership of a character in a `[...]` class body, with `a-z` ranges. -/
def matchClass : List Char → Char → Bool
  | x :: '-' :: y :: rest, c =>
    (decide (x ≤ c) && decide (c ≤ y)) || matchClass rest c
  | x :: rest, c => (x = c) || matchClass rest c
  | [], _ => false

/-- Glob matching on character lists: `*`, `?` and `[...]` classes, with `*`
also matching `/` (as `fnmatch` does).  Every step consumes at least one
pattern or subject character, so the fuel supplied by `fnmatch` below
always suffices; the fuel argument only makes the recursion structural. -/
def globMatchF : Nat → List Char → List Char → Bool
  | 0, _, _ => false
  | _ + 1, [], [] => true
  | _ + 1, [], _ :: _ => false
  | fuel + 1, '*' :: ps, s =>
    globMatchF fuel ps s ||
      (match s with
       | [] => false
       | _ :: s' => globMatchF fuel ('*' :: ps) s')
  | fuel + 1, '?' :: ps, _ :: s => globMatchF fuel ps s
  | _ + 1, '?' :: _, [] => false
  | fuel + 1, '[' :: ps, s =>
    (match takeClass ps with
     | some (cls, rem) =>
       let neg := cls.head? = some '!'
       let body := if neg then cls.tail else cls
       (match s with
        | [] => false
        | c :: s' => (if neg then !(matchClass body c) else matchClass body c)
                       && globMatchF fuel rem s')
     | none =>
       (match s with
        | [] => false
        | c :: s' => (c = '[') && globMatchF fuel ps s'))
  | fuel + 1, p :: ps, c :: s => (p = c) && globMatchF fuel ps s
  | _ + 1, _ :: _, [] => false

/-- `fnmatch.fnmatch(path, pattern)` on POSIX (no case folding). -/
def fnmatch (path pattern : String) : Bool :=
  globMatchF (pattern.data.length + path.data.length + 1) pattern.data path.data

/-! ## `rules/layers.py` -/

/-- One `layer` entry of the layers configuration: a layer name and its
glob patterns. -/
structure LayerDef where
  name : String
  globs : List String
deriving DecidableEq

/-- One `rules` entry: a source layer (`from`) and the layers it may depend
on (the `to` field of the source; `to` is a Lean keyword). -/
structure LayerRule where
  from_layer : String
  to_layers : List String
deriving DecidableEq

/-- `LayersConfig`: ordered layer definitions, rules, and the
`unclassified` policy string (`"allow"`, `"deny"` or `"ignore"`). -/
structure LayersConfig where
  layer : List LayerDef
  rules : List LayerRule
  unclassified : String
deriving DecidableEq

/-- `classify_layer`: first-match-wins classification of a path into a
layer by glob patterns. -/
def classify_layer (path : String) (cfg : LayersConfig) : Option String :=
  cfg.layer.findSome? fun layer_def =>
    if layer_def.globs.any (fun g => fnmatch path g) then some layer_def.name
    else none

/-- `build_allowed_deps`: layer → allowed dependency layers; later rules for
the same `from` layer overwrite earlier ones (Python dict assignment). -/
def build_allowed_deps (cfg : LayersConfig) : String → Option (List String) :=
  cfg.rules.foldl
    (fun acc rule => fun k => if k = rule.from_layer then some rule.to_layers else acc k)
    (fun _ => none)

/-- `is_violation` from `rules/layers.py`.  The catch-all branch embeds the
code's leading `if from_layer is None or to_layer is None` test: under
`allow`/`ignore` it returns `False`, otherwise it returns
`from_layer is not None`. -/
def is_violation (from_layer to_layer : Option String)
    (allowed_deps : String → Option (List String)) (unclassified : String) :
    Bool :=
  match from_layer, to_layer with
  | some f, some t =>
    match allowed_deps f with
    | none => false
    | some ts => !(ts.contains t)
  | _, _ =>
    if unclassified = "allow" || unclassified = "ignore" then false
    else from_layer.isSome

/-- `LayerViolation` record from the dependencies artifact model. -/
structure LayerViolation where
  from_file : String
  to_module : String
  from_layer : String
  to_layer : Option String
deriving DecidableEq

/-- Sort key of `compute_layer_violations`:
`(from_file, to_module, from_layer, to_layer or "")`, lexicographic. -/
def violationLe (a b : LayerViolation) : Bool :=
  if a.from_file ≠ b.from_file then pyStrLt a.from_file b.from_file
  else if a.to_module ≠ b.to_module then pyStrLt a.to_module b.to_module
  else if a.from_layer ≠ b.from_layer then pyStrLt a.from_layer b.from_layer
  else pyStrLe (a.to_layer.getD "") (b.to_layer.getD "")

/-- Loop body of `compute_layer_violations`: one edge is skipped when its
source module has no path, the source path is classified, the target path
(when mapped) is classified, and a violation is appended only when the
source layer is classified (`from_layer is not None`) and `is_violation`
holds. -/
def layerViolationStep (cfg : LayersConfig)
    (module_to_path : String → Option String)
    (allowed_deps : String → Option (List String))
    (acc : List LayerViolation) (e : String × String) : List LayerViolation :=
  match module_to_path e.1 with
  | none => acc
  | some source_path =>
    let from_layer := classify_layer source_path cfg
    let to_layer : Option String :=
      match module_to_path e.2 with
      | none => none
      | some target_path => classify_layer target_path cfg
    match from_layer with
    | none => acc
    | some fl =>
      if is_violation (some fl) to_layer allowed_deps cfg.unclassified then
        acc ++ [⟨source_path, e.2, fl, to_layer⟩]
      else acc

/-- `compute_layer_violations` from `artifacts/summaries/builders.py`:
fold `layerViolationStep` over the edges, then sort deterministically by
`(from_file, to_module, from_layer, to_layer or "")`. -/
def compute_layer_violations (edges : List (String × String))
    (cfg : LayersConfig) (module_to_path : String → Option String) :
    List LayerViolation :=
  if cfg.layer.isEmpty || cfg.rules.isEmpty then []
  else
    let allowed_deps := build_allowed_deps cfg
    let violations :=
      edges.foldl (layerViolationStep cfg module_to_path allowed_deps) []
    pySorted violationLe violations

/-! ## `utils.py` : `path_to_module` -/

/-- Drop a trailing `.py` from the last path segment
(`module_parts[-1] = module_parts[-1][:-3]`). -/
def stripPySuffix (l : List String) : List String :=
  match l.getLast? with
  | some last =>
    if pyEndsWith last ".py" then l.dropLast ++ [pyDropRight last 3] else l
  | none => l

/-- `path_to_module` from `utils.py`: normalize separators, split into
non-empty segments, strip a leading `src` segment when at least two
segments remain, strip a `.py` suffix, collapse a trailing `__init__`
segment, and join with dots.  It returns the joined string unconditionally
(there is no emptiness check in the code). -/
def path_to_module (file_path : String) : String :=
  let path_str := String.mk (file_path.data.map fun c => if c = '\\' then '/' else c)
  let normalized_parts := (pySplitChar path_str '/').filter (fun part => part ≠ "")
  let module_parts :=
    if 2 ≤ normalized_parts.length ∧ normalized_parts.head? = some "src" then
      normalized_parts.tail
    else normalized_parts
  let module_parts := stripPySuffix module_parts
  let module_parts :=
    if module_parts.getLast? = some "__init__" then module_parts.dropLast
    else module_parts
  String.intercalate "." module_parts


/-! ## Data model (`artifacts/models/artifacts/refs.py`) -/

/-- `SourceSpan`: 1-based source coordinates. -/
structure SourceSpan where
  path : String
  start_line : Nat
  start_col : Nat
  end_line : Nat
  end_col : Nat
deriving DecidableEq

/-- `ResolvedTo`: a full match to one symbol or module. -/
structure ResolvedTo where
  symbol_id : String
  qualified_name : String
  resolution : String
  confidence : Nat
  path : Option String
  dst_module : Option String
deriving DecidableEq

/-- `RefEvidence`: resolution strategy and confidence of one reference. -/
structure RefEvidence where
  strategy : String
  confidence : Nat
deriving DecidableEq

/-! ## `parse/name_resolution.py` -/

/-- `SymbolInfo`: symbol metadata used for in-memory name resolution. -/
structure SymbolInfo where
  symbol_id : String
  qualified_name : String
  name : String
  kind : String
  path : String
  base_classes : Option (List String)
deriving DecidableEq

/-- `NameBinding`: a single local-name binding in a module-level name
table. -/
structure NameBinding where
  local_name : String
  target_symbol_id : Option String
  qualified_name : String
  resolution : String
  confidence : Nat
  strategy : String
  target_path : Option String
  target_module : Option String
deriving DecidableEq

/-- `ModulesIndex`: path → canonical module name, in insertion order
(a Python dict iterated and inverted, hence an association list). -/
abbrev ModulesIndex := List (String × String)

/-- `SymbolsIndex`: module name → symbols, in insertion order. -/
abbrev SymbolsIndex := List (String × List SymbolInfo)

/-- `NameTable`: local name → binding; only ever read by key, hence a
function. -/
abbrev NameTable := String → Option NameBinding

/-- `_STRATEGY_CONFIDENCE` lookup table (all call sites use literal keys
present in the dict, so the fallback 0 is unreachable). -/
def STRATEGY_CONFIDENCE (s : String) : Nat :=
  if s = "module_local_def" then 90
  else if s = "module_import_from" then 80
  else if s = "module_import_module" then 75
  else if s = "module_alias_assignment" then 60
  else if s = "class_self_method" then 70
  else if s = "class_cls_method" then 70
  else if s = "class_super_method" then 65
  else if s = "class_static_method" then 75
  else 0

/-- `_is_internal_path`: the path is set and is a key of the modules
index. -/
def is_internal_path (path : Option String) (modules_index : ModulesIndex) :
    Bool :=
  match path with
  | none => false
  | some p => (List.lookup p modules_index).isSome

/-- `_parse_import_name`: split `"name as alias"` into `(name, alias)`,
defaulting `alias = name`. -/
def parse_import_name (name_str : String) : String × String :=
  match findSubstrAux " as ".data name_str.data 0 with
  | some i =>
    (pyStrip (String.mk (name_str.data.take i)),
     pyStrip (String.mk (name_str.data.drop (i + 4))))
  | none =>
    let parsed := pyStrip name_str
    (parsed, parsed)

/-- `_invert_modules_index`: module → first path in sorted `(path, module)`
order (`sorted(items)` then `setdefault`). -/
def invert_modules_index (modules_index : ModulesIndex) :
    List (String × String) :=
  (pySorted strPairLe modules_index).foldl
    (fun acc pm =>
      if (List.lookup pm.2 acc).isSome then acc else acc ++ [(pm.2, pm.1)])
    []

/-- `_build_symbol_lookup`, first component: qualified name → first symbol
(in sorted module order, `setdefault` keeps the first). -/
def symbolsByQualifiedName (symbols_index : SymbolsIndex)
    : List (String × SymbolInfo) :=
  (pySorted strPairLeFst symbols_index).foldl
    (fun acc ms =>
      ms.2.foldl
        (fun acc2 symbol =>
          if (List.lookup symbol.qualified_name acc2).isSome then acc2
          else acc2 ++ [(symbol.qualified_name, symbol)])
        acc)
    []

/-- `_build_symbol_lookup`, second component: module name → synthetic
module `SymbolInfo` when the module has a path. -/
def moduleSymbols (symbols_index : SymbolsIndex)
    (modules_index : ModulesIndex) : List (String × SymbolInfo) :=
  let module_to_path := invert_modules_index modules_index
  (pySorted strPairLeFst symbols_index).foldl
    (fun acc ms =>
      match List.lookup ms.1 module_to_path with
      | none => acc
      | some module_path =>
        if (List.lookup ms.1 acc).isSome then acc
        else
          acc ++ [(ms.1,
            ⟨"module:" ++ module_path, ms.1,
             (pySplitChar ms.1 '.').getLastD ms.1, "module", module_path,
             none⟩)])
    []

/-- `_is_top_level_local_def`: a function/class whose qualified name is
`module_name.<one-segment>`. -/
def is_top_level_local_def (module_name : String) (symbol : SymbolInfo) :
    Bool :=
  if symbol.kind ≠ "function" ∧ symbol.kind ≠ "class" then false
  else
    let pre := module_name ++ "."
    if ¬ pyStartsWith symbol.qualified_name pre then false
    else
      let remainder := String.mk (symbol.qualified_name.data.drop pre.data.length)
      !(remainder.data.contains '.')

/-- `_binding_to_resolved`. -/
def binding_to_resolved (binding : NameBinding)
    (modules_index : ModulesIndex) : ResolvedTo :=
  let path :=
    if is_internal_path binding.target_path modules_index then
      binding.target_path
    else none
  let dst_module := if path.isSome then binding.target_module else none
  let symbol_id :=
    match binding.target_symbol_id with
    | some sid => sid
    | none => "ext:" ++ binding.qualified_name
  ⟨symbol_id, binding.qualified_name, binding.resolution, binding.confidence,
   path, dst_module⟩

/-- Import tuples extracted per file: `(line, module, name-or-alias, level)`
for each of the four import shapes (`ast_imports.extract_imports`). -/
structure ImportsData where
  import_module : List (Nat × String × String × Nat)
  import_from : List (Nat × String × String × Nat)
  import_star : List (Nat × String × String × Nat)
  relative_import : List (Nat × String × String × Nat)
deriving DecidableEq

/-- `resolve_relative_import` from `parse/ast_imports.py`. -/
def resolve_relative_import (importing_module relative_module : String)
    (level : Nat) : String :=
  let parts := pySplitChar importing_module '.'
  if parts.length < level then
    if relative_module ≠ "" then relative_module else importing_module
  else
    let base_parts := parts.take (parts.length - level)
    if relative_module ≠ "" then
      String.intercalate "." (base_parts ++ [relative_module])
    else if ¬ base_parts.isEmpty then String.intercalate "." base_parts
    else importing_module

/-- Functional update of a `NameTable` (`table[local_name] = binding`). -/
def tableSet (table : NameTable) (k : String) (binding : NameBinding) :
    NameTable :=
  fun x => if x = k then some binding else table x

/-- `_add_local_def_bindings`. -/
def add_local_def_bindings (table : NameTable) (module_name : String)
    (symbols_index : SymbolsIndex) : NameTable :=
  ((List.lookup module_name symbols_index).getD []).foldl
    (fun t symbol =>
      if is_top_level_local_def module_name symbol then
        tableSet t symbol.name
          ⟨symbol.name, some symbol.symbol_id, symbol.qualified_name,
           symbol.kind, STRATEGY_CONFIDENCE "module_local_def",
           "module_local_def", some symbol.path, some module_name⟩
      else t)
    table

/-- `_add_import_module_bindings`. -/
def add_import_module_bindings (table : NameTable) (imports : ImportsData)
    (module_to_path : List (String × String))
    (module_symbols : List (String × SymbolInfo)) : NameTable :=
  imports.import_module.foldl
    (fun t imp =>
      let imported_module := imp.2.1
      let asname := imp.2.2.1
      let p :=
        if asname ≠ "" then (asname, imported_module)
        else
          let top_level_module := ((pySplitChar imported_module '.').headD "")
          (top_level_module, top_level_module)
      let local_name := p.1
      let target_module := p.2
      let target_path := List.lookup target_module module_to_path
      let module_symbol := List.lookup target_module module_symbols
      tableSet t local_name
        ⟨local_name, module_symbol.map (fun s => s.symbol_id), target_module,
         "module", STRATEGY_CONFIDENCE "module_import_module",
         "module_import_module", target_path,
         if target_path.isSome then some target_module else none⟩)
    table

/-- `_add_import_from_bindings`. -/
def add_import_from_bindings (table : NameTable) (imports : ImportsData)
    (symbols_by_qualified_name : List (String × SymbolInfo))
    (modules_index : ModulesIndex) : NameTable :=
  imports.import_from.foldl
    (fun t imp =>
      let imported_module := imp.2.1
      let name_alias := imp.2.2.1
      let pr := parse_import_name name_alias
      let imported_name := pr.1
      let local_name := pr.2
      let qualified_name :=
        if imported_module ≠ "" then imported_module ++ "." ++ imported_name
        else imported_name
      let imported_symbol := List.lookup qualified_name symbols_by_qualified_name
      tableSet t local_name
        ⟨local_name, imported_symbol.map (fun s => s.symbol_id), qualified_name,
         (match imported_symbol with
          | some s => s.kind
          | none => "imported_name"),
         STRATEGY_CONFIDENCE "module_import_from", "module_import_from",
         imported_symbol.map (fun s => s.path),
         (match imported_symbol with
          | some s => List.lookup s.path modules_index
          | none => none)⟩)
    table

/-- `_add_relative_import_bindings`. -/
def add_relative_import_bindings (table : NameTable) (imports : ImportsData)
    (module_name : String)
    (symbols_by_qualified_name : List (String × SymbolInfo))
    (modules_index : ModulesIndex) : NameTable :=
  imports.relative_import.foldl
    (fun t imp =>
      let relative_module := imp.2.1
      let name_alias := imp.2.2.1
      let level := imp.2.2.2
      let pr := parse_import_name name_alias
      let imported_name := pr.1
      let local_name := pr.2
      let resolved_module := resolve_relative_import module_name relative_module level
      let qualified_name :=
        if resolved_module ≠ "" then resolved_module ++ "." ++ imported_name
        else imported_name
      let imported_symbol := List.lookup qualified_name symbols_by_qualified_name
      tableSet t local_name
        ⟨local_name, imported_symbol.map (fun s => s.symbol_id), qualified_name,
         (match imported_symbol with
          | some s => s.kind
          | none => "imported_name"),
         STRATEGY_CONFIDENCE "module_import_from", "module_import_from",
         imported_symbol.map (fun s => s.path),
         (match imported_symbol with
          | some s => List.lookup s.path modules_index
          | none => none)⟩)
    table

/-- `_add_trivial_alias_bindings`, parameterized by the alias pairs that
`_extract_trivial_aliases` reads from the source file (file I/O stays
outside the embedding; the pairs are `(target_name, source_name)` of
module-scope `target = source` assignments between bare names). -/
def add_trivial_alias_bindings (table : NameTable)
    (aliases : List (String × String)) : NameTable :=
  aliases.foldl
    (fun t al =>
      match t al.2 with
      | none => t
      | some source_binding =>
        tableSet t al.1
          ⟨al.1, source_binding.target_symbol_id,
           source_binding.qualified_name, source_binding.resolution,
           STRATEGY_CONFIDENCE "module_alias_assignment",
           "module_alias_assignment", source_binding.target_path,
           source_binding.target_module⟩)
    table

/-- `build_name_table`: the five layering passes in their fixed order
(later bindings overwrite earlier ones). -/
def build_name_table (file_path : String) (modules_index : ModulesIndex)
    (symbols_index : SymbolsIndex) (imports : ImportsData)
    (aliases : List (String × String)) : NameTable :=
  match List.lookup file_path modules_index with
  | none => fun _ => none
  | some module_name =>
    let module_to_path := invert_modules_index modules_index
    let symbols_by_qualified_name := symbolsByQualifiedName symbols_index
    let module_symbols := moduleSymbols symbols_index modules_index
    let table : NameTable := fun _ => none
    let table := add_local_def_bindings table module_name symbols_index
    let table := add_import_module_bindings table imports module_to_path module_symbols
    let table := add_import_from_bindings table imports symbols_by_qualified_name modules_index
    let table := add_relative_import_bindings table imports module_name symbols_by_qualified_name modules_index
    add_trivial_alias_bindings table aliases

/-- Result tuple of the call resolvers:
`(resolved_to, resolved_base_to, member, strategy, confidence)`. -/
abbrev ResolveResult :=
  Option ResolvedTo × Option ResolvedTo × Option String × String × Nat

/-- The prefix scan of `resolve_call`
(`for i in range(len(parts) - 1, 0, -1)`): the longest strict dotted prefix
of `parts` bound in the name table, with its length. -/
def findPrefixBinding (name_table : NameTable) (parts : List String) :
    Nat → Option (Nat × NameBinding)
  | 0 => none
  | i + 1 =>
    match name_table (String.intercalate "." (parts.take (i + 1))) with
    | some binding => some (i + 1, binding)
    | none => findPrefixBinding name_table parts i

/-- The module-consuming walk of `resolve_call`: keep appending dotted
segments as long as `<current_module>.<segment>` is itself a known module;
returns the final module and the number of consumed segments. -/
def consumeModules (module_to_path : List (String × String)) :
    String → List String → String × Nat
  | current, [] => (current, 0)
  | current, part :: rest =>
    let candidate := current ++ "." ++ part
    if (List.lookup candidate module_to_path).isSome then
      let r := consumeModules module_to_path candidate rest
      (r.1, r.2 + 1)
    else (current, 0)

/-- `resolve_call` (Tier 1) from `parse/name_resolution.py`. -/
def resolve_call (callee_expr : String) (name_table : NameTable)
    (modules_index : ModulesIndex) : ResolveResult :=
  let expr := pyStrip callee_expr
  if expr = "" then (none, none, none, "dynamic_unresolvable", 0)
  else
    match name_table expr with
    | some direct =>
      (some (binding_to_resolved direct modules_index), none, none,
       direct.strategy, direct.confidence)
    | none =>
      let parts := pySplitChar expr '.'
      if parts.length = 1 then (none, none, none, "dynamic_unresolvable", 0)
      else
        let module_to_path := invert_modules_index modules_index
        match findPrefixBinding name_table parts (parts.length - 1) with
        | none => (none, none, none, "dynamic_unresolvable", 0)
        | some (prefIdx, prefBinding) =>
          let remaining_parts := parts.drop prefIdx
          let cm := consumeModules module_to_path prefBinding.qualified_name
            remaining_parts
          let current_module := cm.1
          let consumed := cm.2
          let base_binding :=
            if 0 < consumed then
              match List.lookup current_module module_to_path with
              | some module_path =>
                (⟨String.intercalate "." (parts.take (prefIdx + consumed)),
                  some ("module:" ++ module_path), current_module, "module",
                  STRATEGY_CONFIDENCE "module_import_module",
                  "module_import_module", some module_path,
                  some current_module⟩ : NameBinding)
              | none => prefBinding
            else prefBinding
          let unresolved_tail := remaining_parts.drop consumed
          if unresolved_tail.isEmpty then
            (some (binding_to_resolved base_binding modules_index), none, none,
             base_binding.strategy, base_binding.confidence)
          else
            (none, some (binding_to_resolved base_binding modules_index),
             some (String.intercalate "." unresolved_tail),
             base_binding.strategy, base_binding.confidence)

/-- `ClassContext`: enclosing class context for Tier 2 resolution. -/
structure ClassContext where
  class_qualified_name : String
  class_symbol_id : String
  class_path : String
  class_module : String
deriving DecidableEq

/-- `rsplit(".", 1)[0]`: everything before the last dot. -/
def beforeLastDot (s : String) : String :=
  String.intercalate "." ((pySplitChar s '.').dropLast)

/-- `_find_enclosing_class`: parse a canonical
`sym:{path}::{qualified_name}@L{line}:C{col}` enclosing-symbol id and find
the class symbol whose qualified name is the parent of the enclosing
qualified name. -/
def find_enclosing_class (enclosing_symbol_id : Option String)
    (symbols_index : SymbolsIndex) : Option ClassContext :=
  match enclosing_symbol_id with
  | none => none
  | some eid =>
    if eid = "" then none
    else if ¬ pyStartsWith eid "sym:" then none
    else
      let after_sym := String.mk (eid.data.drop 4)
      match findSubstrAux "::".data after_sym.data 0 with
      | none => none
      | some dpos =>
        let qname_and_loc := String.mk (after_sym.data.drop (dpos + 2))
        match findSubstrAux "@".data qname_and_loc.data 0 with
        | none => none
        | some apos =>
          let enclosing_qname := String.mk (qname_and_loc.data.take apos)
          if ¬ enclosing_qname.data.contains '.' then none
          else
            let candidate_class_qname := beforeLastDot enclosing_qname
            symbols_index.findSome? fun ms =>
              (ms.2.find? fun symbol =>
                  symbol.qualified_name == candidate_class_qname
                    && symbol.kind == "class").map
                fun symbol =>
                  ⟨symbol.qualified_name, symbol.symbol_id, symbol.path, ms.1⟩

/-- `_find_method_in_class`: the method `class_qname.method_name` in the
symbols index. -/
def find_method_in_class (class_qname method_name : String)
    (symbols_index : SymbolsIndex) : Option SymbolInfo :=
  symbols_index.findSome? fun ms =>
    ms.2.find? fun symbol =>
      symbol.qualified_name == class_qname ++ "." ++ method_name
        && symbol.kind == "method"

/-- `_find_class_by_qname`. -/
def find_class_by_qname (class_qname : String)
    (symbols_index : SymbolsIndex) : Option SymbolInfo :=
  symbols_index.findSome? fun ms =>
    ms.2.find? fun symbol =>
      symbol.qualified_name == class_qname && symbol.kind == "class"

/-- `_resolve_base_class_qname`: name table first, then module-local class
lookup. -/
def resolve_base_class_qname (base_name class_module : String)
    (name_table : NameTable) (symbols_index : SymbolsIndex) :
    Option String :=
  match name_table base_name with
  | some binding => some binding.qualified_name
  | none =>
    let candidate := class_module ++ "." ++ base_name
    symbols_index.findSome? fun ms =>
      ms.2.findSome? fun symbol =>
        if symbol.qualified_name == candidate && symbol.kind == "class" then
          some candidate
        else none

/-- Shared body of the `self.method()` and `cls.method()` branches of
`resolve_call_class_context` (the two code blocks differ only in the
strategy string). -/
def resolveSelfClsBranch (strategy : String) (method_name : String)
    (enclosing_symbol_id : Option String) (modules_index : ModulesIndex)
    (symbols_index : SymbolsIndex) : Option ResolveResult :=
  match find_enclosing_class enclosing_symbol_id symbols_index with
  | none => none
  | some class_ctx =>
    match find_method_in_class class_ctx.class_qualified_name method_name
        symbols_index with
    | some method_symbol =>
      some (some ⟨method_symbol.symbol_id, method_symbol.qualified_name,
        "method", STRATEGY_CONFIDENCE strategy, some method_symbol.path,
        List.lookup method_symbol.path modules_index⟩,
        none, none, strategy, STRATEGY_CONFIDENCE strategy)
    | none =>
      match find_class_by_qname class_ctx.class_qualified_name symbols_index with
      | some class_symbol =>
        some (none, some ⟨class_symbol.symbol_id, class_symbol.qualified_name,
          "class", STRATEGY_CONFIDENCE strategy, some class_symbol.path,
          List.lookup class_symbol.path modules_index⟩,
          some method_name, strategy, STRATEGY_CONFIDENCE strategy)
      | none => none

/-- The `super().method()` branch of `resolve_call_class_context`: resolve
to the single base class's method; classes with zero or several bases, or
an unresolvable base, yield `none`. -/
def resolveSuperBranch (method_name : String)
    (enclosing_symbol_id : Option String) (name_table : NameTable)
    (modules_index : ModulesIndex) (symbols_index : SymbolsIndex) :
    Option ResolveResult :=
  match find_enclosing_class enclosing_symbol_id symbols_index with
  | none => none
  | some class_ctx =>
    match find_class_by_qname class_ctx.class_qualified_name symbols_index with
    | none => none
    | some class_symbol =>
      match class_symbol.base_classes with
      | none => none
      | some bases =>
        if bases.isEmpty then none
        else if bases.length ≠ 1 then none
        else
          let base_name := bases.headD ""
          match resolve_base_class_qname base_name class_ctx.class_module
              name_table symbols_index with
          | none => none
          | some base_qname =>
            match find_method_in_class base_qname method_name symbols_index with
            | some base_method =>
              some (some ⟨base_method.symbol_id, base_method.qualified_name,
                "method", STRATEGY_CONFIDENCE "class_super_method",
                some base_method.path,
                List.lookup base_method.path modules_index⟩,
                none, none, "class_super_method",
                STRATEGY_CONFIDENCE "class_super_method")
            | none =>
              match find_class_by_qname base_qname symbols_index with
              | some base_class_symbol =>
                some (none, some ⟨base_class_symbol.symbol_id,
                  base_class_symbol.qualified_name, "class",
                  STRATEGY_CONFIDENCE "class_super_method",
                  some base_class_symbol.path,
                  List.lookup base_class_symbol.path modules_index⟩,
                  some method_name, "class_super_method",
                  STRATEGY_CONFIDENCE "class_super_method")
              | none => none

/-- Python truthiness of `binding.target_symbol_id` (`None` and `""` are
falsy). -/
def targetSymbolIdTruthy (x : Option String) : Bool :=
  match x with
  | some sid => sid ≠ ""
  | none => false

/-- `resolve_call_class_context` (Tier 2) from `parse/name_resolution.py`:
the four class-context shapes `self.m` / `cls.m` / `super().m` /
`ClassName.m`, or `none` when the function does not handle the
expression. -/
def resolve_call_class_context (callee_expr : String)
    (enclosing_symbol_id : Option String) (name_table : NameTable)
    (modules_index : ModulesIndex) (symbols_index : SymbolsIndex) :
    Option ResolveResult :=
  let expr := pyStrip callee_expr
  if expr = "" then none
  else
    let parts := pySplitChar expr '.'
    if parts.length < 2 then none
    else
      let receiver := parts.headD ""
      let method_name := (parts.drop 1).headD ""
      if receiver = "self" ∧ parts.length = 2 then
        resolveSelfClsBranch "class_self_method" method_name
          enclosing_symbol_id modules_index symbols_index
      else if receiver = "cls" ∧ parts.length = 2 then
        resolveSelfClsBranch "class_cls_method" method_name
          enclosing_symbol_id modules_index symbols_index
      else if receiver = "super()" ∧ parts.length = 2 then
        resolveSuperBranch method_name enclosing_symbol_id name_table
          modules_index symbols_index
      else
        match name_table receiver with
        | none => none
        | some binding =>
          if binding.resolution = "class" ∧ parts.length = 2 then
            match find_method_in_class binding.qualified_name method_name
                symbols_index with
            | some method_symbol =>
              some (some ⟨method_symbol.symbol_id,
                method_symbol.qualified_name, "method",
                STRATEGY_CONFIDENCE "class_static_method",
                some method_symbol.path,
                List.lookup method_symbol.path modules_index⟩,
                none, none, "class_static_method",
                STRATEGY_CONFIDENCE "class_static_method")
            | none =>
              if targetSymbolIdTruthy binding.target_symbol_id then
                some (none, some (binding_to_resolved binding modules_index),
                  some method_name, "class_static_method",
                  STRATEGY_CONFIDENCE "class_static_method")
              else none
          else none

/-! ## Artifact generators (`calls_raw.py`, `refs.py`, `calls.py`) -/

/-- One extracted call site (`parse/treesitter_calls.py` output dict). -/
structure CallSite where
  callee_expr : String
  src_span : SourceSpan
  enclosing_symbol_id : String
deriving DecidableEq

/-- `CallRawRecord` of the calls_raw artifact. -/
structure CallRawRecord where
  ref_id : String
  src_span : SourceSpan
  callee_expr : String
  enclosing_symbol_id : String
  resolved_to : Option ResolvedTo
  evidence_strategy : String
deriving DecidableEq

/-- `RefRecord` of the refs artifact. -/
structure RefRecord where
  ref_id : String
  ref_kind : String
  src_span : SourceSpan
  module : String
  enclosing_symbol_id : Option String
  expr : String
  resolved_to : Option ResolvedTo
  evidence : RefEvidence
  resolved_base_to : Option ResolvedTo
  member : Option String
deriving DecidableEq

/-- `CallRecord` of the calls artifact. -/
structure CallRecord where
  ref_id : String
  src_span : SourceSpan
  callee_expr : String
  module : String
  enclosing_symbol_id : Option String
  resolved_to : Option ResolvedTo
  resolved_base_to : Option ResolvedTo
  member : Option String
  evidence : RefEvidence
deriving DecidableEq

/-- The published `ref_id` template
`ref:{path}@L{line}:C{col}:{ref_kind}:{expr}` recomputed from a record's
own fields (`contract/artifacts.py`). -/
def mkRefId (path : String) (line col : Nat) (ref_kind expr : String) :
    String :=
  "ref:" ++ path ++ "@L" ++ toString line ++ ":C" ++ toString col ++ ":"
    ++ ref_kind ++ ":" ++ expr

/-- Sort key of the calls_raw artifact:
`(path, start_line, start_col, "call", enclosing_symbol_id, callee_expr)`. -/
def callsRawSortLe (a b : CallRawRecord) : Bool :=
  if a.src_span.path ≠ b.src_span.path then
    pyStrLt a.src_span.path b.src_span.path
  else if a.src_span.start_line ≠ b.src_span.start_line then
    decide (a.src_span.start_line < b.src_span.start_line)
  else if a.src_span.start_col ≠ b.src_span.start_col then
    decide (a.src_span.start_col < b.src_span.start_col)
  else if a.enclosing_symbol_id ≠ b.enclosing_symbol_id then
    pyStrLt a.enclosing_symbol_id b.enclosing_symbol_id
  else pyStrLe a.callee_expr b.callee_expr

/-- `CallsRawGenerator.generate`: one record per extracted call site, over
the concatenated per-file call sites, sorted deterministically.  The
`ref_id` is built inline as
`ref:{path}@L{start_line}:C{start_col}:call:{callee_expr}` from the
stripped callee expression. -/
def calls_raw_generate (call_sites : List CallSite) : List CallRawRecord :=
  pySorted callsRawSortLe
    (call_sites.map fun call_site =>
      let callee_expr := pyStrip call_site.callee_expr
      ⟨"ref:" ++ call_site.src_span.path
         ++ "@L" ++ toString call_site.src_span.start_line
         ++ ":C" ++ toString call_site.src_span.start_col
         ++ ":call:" ++ callee_expr,
       call_site.src_span, callee_expr, call_site.enclosing_symbol_id, none,
       "syntax_only"⟩)

/-- `_normalize_enclosing_path`: backslashes to slashes, then drop leading
`./` repeatedly. -/
def dropDotSlash : List Char → List Char
  | '.' :: '/' :: rest => dropDotSlash rest
  | l => l

/-- `_normalize_enclosing_path` from `refs.py`. -/
def normalize_enclosing_path (p : String) : String :=
  String.mk (dropDotSlash (p.data.map fun c => if c = '\\' then '/' else c))

/-- Numeric value of a non-empty digit run. -/
def digitsVal (l : List Char) : Nat :=
  l.foldl (fun acc c => acc * 10 + (c.toNat - 48)) 0

/-- Parse `L{digits}:C{digits}` anchored to the end of the list (the tail of
`_RAW_ENCLOSING_PATTERN` after `@`). -/
def parseLineColEnd (l : List Char) : Option (Nat × Nat) :=
  match l with
  | 'L' :: r =>
    let ds := r.takeWhile Char.isDigit
    let rest2 := r.dropWhile Char.isDigit
    if ds.isEmpty then none
    else
      match rest2 with
      | ':' :: 'C' :: r3 =>
        if r3.isEmpty then none
        else if r3.all Char.isDigit then some (digitsVal ds, digitsVal r3)
        else none
      | _ => none
  | _ => none

/-- Non-greedy scan for the `@` split of `_RAW_ENCLOSING_PATTERN`: the first
`@` whose tail matches `L{digits}:C{digits}$`; returns the path part and
the coordinates. -/
def findAtSplitPos : List Char → Option (List Char × Nat × Nat)
  | [] => none
  | c :: rest =>
    (if c = '@' then
      match parseLineColEnd rest with
      | some lc => some (([] : List Char), lc.1, lc.2)
      | none => none
     else none)
    <|> ((findAtSplitPos rest).map fun r => (c :: r.1, r.2.1, r.2.2))

/-- `_RAW_ENCLOSING_PATTERN.match`:
`^(?:symbol:|module:)(?P<path>.+?)@L(?P<line>\d+):C(?P<col>\d+)$` — the
path group is non-empty and non-greedy. -/
def rawEnclosingMatch (s : String) : Option (String × Nat × Nat) :=
  let rest :=
    if pyStartsWith s "symbol:" then some (s.data.drop 7)
    else if pyStartsWith s "module:" then some (s.data.drop 7)
    else none
  match rest with
  | none => none
  | some l =>
    match findAtSplitPos l with
    | none => none
    | some r => if r.1.isEmpty then none else some (String.mk r.1, r.2.1, r.2.2)

/-- `rsplit(":", 1)[0]`: everything before the last colon. -/
def beforeLastColon (s : String) : String :=
  String.intercalate ":" (((splitCharList ':' s.data).map String.mk).dropLast)

/-- `_candidate_coordinates`: the seven off-by-one candidates, filtered to
positive coordinates, de-duplicated, in order. -/
def candidate_coordinates (line col : Nat) : List (Nat × Nat) :=
  [(line, col), (line, col - 1), (line - 1, col), (line - 1, col - 1),
   (line, col + 1), (line + 1, col), (line + 1, col + 1)].foldl
    (fun acc cand =>
      if cand.1 < 1 ∨ cand.2 < 1 then acc
      else if acc.contains cand then acc
      else acc ++ [cand])
    []

/-- The `(path, line, col) → canonical symbol_id` lookup built from
symbols.jsonl (`_build_symbols_by_span`). -/
abbrev SpanMap := List ((String × Nat × Nat) × String)

/-- `_canonicalize_enclosing_id` from `refs.py`: rewrite a legacy
`symbol:`/`module:` id to the canonical `sym:` id of a nearby symbol start
position, else pass the raw id through. -/
def canonicalize_enclosing_id (raw_id : Option String)
    (symbols_by_span : SpanMap) : Option String :=
  match raw_id with
  | none => none
  | some rid =>
    if rid = "" then none
    else
      match rawEnclosingMatch rid with
      | none => some rid
      | some pr =>
        let path0 := normalize_enclosing_path pr.1
        let line := pr.2.1
        let col := pr.2.2
        let path :=
          if pyStartsWith rid "symbol:" ∧ path0.data.contains ':' then
            let candidate_path := beforeLastColon path0
            if candidate_path.data.contains '/'
                ∨ pyEndsWith candidate_path ".py" then candidate_path
            else path0
          else path0
        match
          (candidate_coordinates line col).findSome? fun cand =>
            List.lookup (path, cand.1, cand.2) symbols_by_span
        with
        | some canonical => some canonical
        | none => some rid

/-- `calls_by_path`: the calls_raw records of one file, in artifact order
(the generator groups records by `src_span.path`). -/
def calls_by_path (records : List CallRawRecord) (path : String) :
    List CallRawRecord :=
  records.filter fun record => record.src_span.path == path

/-- The inner loop of `RefsGenerator.generate` for one file: skip
empty-stripped callee expressions, resolve with Tier 1 `resolve_call` (the
only resolver the generator invokes), canonicalize the enclosing id, and
build the `RefRecord` with the inline `ref_id` f-string. -/
def refs_generate_file (module_name : String) (name_table : NameTable)
    (modules_index : ModulesIndex) (symbols_by_span : SpanMap)
    (call_records : List CallRawRecord) : List RefRecord :=
  call_records.filterMap fun call_record =>
    let callee_expr := pyStrip call_record.callee_expr
    if callee_expr = "" then none
    else
      let r := resolve_call callee_expr name_table modules_index
      let enclosing_symbol_id :=
        canonicalize_enclosing_id (some call_record.enclosing_symbol_id)
          symbols_by_span
      some ⟨"ref:" ++ call_record.src_span.path
          ++ "@L" ++ toString call_record.src_span.start_line
          ++ ":C" ++ toString call_record.src_span.start_col
          ++ ":call:" ++ callee_expr,
        "call", call_record.src_span, module_name, enclosing_symbol_id,
        callee_expr, r.1, ⟨r.2.2.2.1, r.2.2.2.2⟩, r.2.1, r.2.2.1⟩

/-- Per-file inputs of the refs generator that come from scanning and
parsing the file itself (imports and module-scope trivial aliases). -/
structure RefsFileInput where
  path : String
  imports : ImportsData
  aliases : List (String × String)
deriving DecidableEq

/-- Sort key of the refs artifact:
`(path, start_line, start_col, ref_kind, enclosing_symbol_id or "", expr)`. -/
def refsSortLe (a b : RefRecord) : Bool :=
  if a.src_span.path ≠ b.src_span.path then
    pyStrLt a.src_span.path b.src_span.path
  else if a.src_span.start_line ≠ b.src_span.start_line then
    decide (a.src_span.start_line < b.src_span.start_line)
  else if a.src_span.start_col ≠ b.src_span.start_col then
    decide (a.src_span.start_col < b.src_span.start_col)
  else if a.ref_kind ≠ b.ref_kind then pyStrLt a.ref_kind b.ref_kind
  else if a.enclosing_symbol_id.getD "" ≠ b.enclosing_symbol_id.getD "" then
    pyStrLt (a.enclosing_symbol_id.getD "") (b.enclosing_symbol_id.getD "")
  else pyStrLe a.expr b.expr

/-- `RefsGenerator.generate`: for each scanned file with a known module
identity, build the name table (local defs, imports, aliases) and resolve
every raw call of that file with `resolve_call`; sort the result.  Tier 2
`resolve_call_class_context` is never invoked. -/
def refs_generate (files : List RefsFileInput) (modules_index : ModulesIndex)
    (symbols_index : SymbolsIndex) (symbols_by_span : SpanMap)
    (calls_raw_records : List CallRawRecord) : List RefRecord :=
  pySorted refsSortLe
    (files.foldl
      (fun acc file =>
        match List.lookup file.path modules_index with
        | none => acc
        | some module_name =>
          let name_table := build_name_table file.path modules_index
            symbols_index file.imports file.aliases
          acc ++ refs_generate_file module_name name_table modules_index
            symbols_by_span (calls_by_path calls_raw_records file.path))
      [])

/-- `CallsGenerator.generate`: a pure projection of the refs records with
`ref_kind = "call"` (the generator's isinstance guards only skip malformed
records and never synthesize a `ref_id`; records deserialized from the refs
artifact are well-typed). -/
def calls_generate (refs_records : List RefRecord) : List CallRecord :=
  refs_records.filterMap fun record =>
    if record.ref_kind = "call" then
      some ⟨record.ref_id, record.src_span, record.expr, record.module,
        record.enclosing_symbol_id, record.resolved_to,
        record.resolved_base_to, record.member, record.evidence⟩
    else none

/-! ## Concrete name-resolution fixtures used by witnesses -/

/-- Modules index of the two-file `pkg` fixture. -/
def midxC5 : ModulesIndex :=
  [("pkg/use_mod.py", "pkg.use_mod"), ("pkg/mod.py", "pkg.mod")]

/-- Imports of `import pkg.mod as mod`. -/
def importsC5 : ImportsData := ⟨[(1, "pkg.mod", "mod", 0)], [], [], []⟩

/-- Name table the pipeline builds for `pkg/use_mod.py`. -/
def ntC5 : NameTable := build_name_table "pkg/use_mod.py" midxC5 [] importsC5 []

/-- The binding `ntC5` assigns to `mod`. -/
def bC5 : NameBinding :=
  ⟨"mod", none, "pkg.mod", "module", 75, "module_import_module",
   some "pkg/mod.py", some "pkg.mod"⟩

/-- Modules index of the one-file `pkg.mod` fixture. -/
def midxT2 : ModulesIndex := [("pkg/mod.py", "pkg.mod")]

/-- Symbols of `class Base: def run ...; class Child(Base): def run ...`. -/
def sidxSuper1 : SymbolsIndex :=
  [("pkg.mod",
    [⟨"sym:pkg/mod.py::pkg.mod.Base@L1:C1", "pkg.mod.Base", "Base", "class",
      "pkg/mod.py", none⟩,
     ⟨"sym:pkg/mod.py::pkg.mod.Base.run@L2:C5", "pkg.mod.Base.run", "run",
      "method", "pkg/mod.py", none⟩,
     ⟨"sym:pkg/mod.py::pkg.mod.Child@L5:C1", "pkg.mod.Child", "Child",
      "class", "pkg/mod.py", some ["Base"]⟩,
     ⟨"sym:pkg/mod.py::pkg.mod.Child.run@L6:C5", "pkg.mod.Child.run", "run",
      "method", "pkg/mod.py", none⟩])]

/-- Name table binding `Base` to the known base class. -/
def ntSuper1 : NameTable := fun s =>
  if s = "Base" then
    some ⟨"Base", some "sym:pkg/mod.py::pkg.mod.Base@L1:C1", "pkg.mod.Base",
      "class", 90, "module_local_def", some "pkg/mod.py", some "pkg.mod"⟩
  else none

/-- Symbols of `class C(A, B): def run ...` with two unrelated bases. -/
def sidxSuperN : SymbolsIndex :=
  [("pkg.mod",
    [⟨"sym:pkg/mod.py::pkg.mod.A@L1:C1", "pkg.mod.A", "A", "class",
      "pkg/mod.py", none⟩,
     ⟨"sym:pkg/mod.py::pkg.mod.B@L3:C1", "pkg.mod.B", "B", "class",
      "pkg/mod.py", none⟩,
     ⟨"sym:pkg/mod.py::pkg.mod.C@L5:C1", "pkg.mod.C", "C", "class",
      "pkg/mod.py", some ["A", "B"]⟩,
     ⟨"sym:pkg/mod.py::pkg.mod.C.run@L6:C5", "pkg.mod.C.run", "run",
      "method", "pkg/mod.py", none⟩])]

/-! ## `graph/algos.py`: Tarjan SCC / cycle detection

The Python `_strongconnect` recurses without an explicit bound; the `fuel`
argument only makes the recursion structural (each nested call visits a
previously unindexed node, so `tarjanFuel` — one more than the number of
graph nodes — always suffices, which `find_cycles` is proven to respect in
the theorems below).  A run that would exceed its fuel is distinguished by
the `outOfFuel` marker, never silently truncated. -/

/-- A directed graph: adjacency list in insertion order, each value a
neighbor set (duplicates are immaterial). -/
abbrev Graph := List (String × List String)

/-- `_TarjanState`: the mutable state container.  The stack's top is the
list head (Python appends and pops at the end). -/
structure TarjanState where
  index : Nat
  indices : List (String × Nat)
  low_link : List (String × Nat)
  on_stack : List String
  stack : List String
  sccs : List (List String)
deriving DecidableEq

/-- Python dict assignment `d[k] = v`: update in place or append. -/
def dset (d : List (String × Nat)) (k : String) (v : Nat) :
    List (String × Nat) :=
  match d with
  | [] => [(k, v)]
  | (k0, v0) :: rest =>
    if k0 = k then (k, v) :: rest else (k0, v0) :: dset rest k v

/-- Python dict access `d[k]`; every call site has the key present, making
the default unreachable. -/
def dget (d : List (String × Nat)) (k : String) : Nat :=
  (List.lookup k d).getD 0

/-- Python `set.add` (membership-only set modelled as a list). -/
def sadd (s : List String) (x : String) : List String :=
  if s.contains x then s else x :: s

/-- Python `set.remove`; every call site has the element present. -/
def sremove (s : List String) (x : String) : List String :=
  s.erase x

/-- Errors of the embedded Tarjan run: the `RuntimeError` of
`_extract_scc`, or fuel exhaustion (impossible with `tarjanFuel`). -/
inductive TarjanErr where
  | invariantViolation (msg : String)
  | outOfFuel
deriving DecidableEq

/-- View of `Except` as a sum, for deciding equality of run results. -/
def exceptToSum {ε α : Type} : Except ε α → Sum ε α
  | .error e => .inl e
  | .ok a => .inr a

instance {ε α : Type} [DecidableEq ε] [DecidableEq α] :
    DecidableEq (Except ε α) := fun a b =>
  decidable_of_iff (exceptToSum a = exceptToSum b)
    (by cases a <;> cases b <;> simp [exceptToSum])

/-- The `RuntimeError` message of `_extract_scc`. -/
def tarjanInvariantMsg (root : String) : String :=
  "Tarjan algorithm invariant violated: root node " ++ reprStr root
    ++ " not found in stack during SCC extraction."

/-- The `while state.stack:` loop of `_extract_scc`: pop, unmark, append,
stop at `root`.  Returns the remaining stack, remaining `on_stack`, and the
popped component. -/
def extractLoop (root : String) :
    List String → List String → List String →
    List String × List String × List String
  | [], on_stack, scc => ([], on_stack, scc)
  | w :: rest, on_stack, scc =>
    let on2 := sremove on_stack w
    let scc2 := scc ++ [w]
    if w = root then (rest, on2, scc2)
    else extractLoop root rest on2 scc2

/-- `_extract_scc`: pop the strongly connected component of `root` off the
stack; a missing root is an unrecoverable invariant violation
(`RuntimeError`), not a degraded result. -/
def extract_scc (state : TarjanState) (root : String) :
    Except TarjanErr (TarjanState × List String) :=
  let r := extractLoop root state.stack state.on_stack []
  if root ∈ r.2.2 then
    .ok ({ state with stack := r.1, on_stack := r.2.1 }, r.2.2)
  else .error (.invariantViolation (tarjanInvariantMsg root))

/-- `sorted(graph.get(node, set()))`: the neighbor set in sorted order. -/
def neighborsSorted (graph : Graph) (node : String) : List String :=
  pySorted pyStrLe ((List.lookup node graph).getD []).dedup

/-- The `for neighbor in sorted(...)` loop of `_strongconnect`,
parameterized by the recursive call (`sc`) so that the recursion stays
structural: unvisited neighbors recurse and fold their low-link back;
on-stack neighbors lower the low link; finished neighbors are skipped. -/
def visitNeighbors
    (sc : String → TarjanState → Except TarjanErr TarjanState)
    (node : String) :
    List String → TarjanState → Except TarjanErr TarjanState
  | [], state => .ok state
  | neighbor :: rest, state =>
    match List.lookup neighbor state.indices with
    | none =>
      match sc neighbor state with
      | .error e => .error e
      | .ok st2 =>
        let ll := min (dget st2.low_link node) (dget st2.low_link neighbor)
        visitNeighbors sc node rest
          { st2 with low_link := dset st2.low_link node ll }
    | some idx =>
      if neighbor ∈ state.on_stack then
        let ll := min (dget state.low_link node) idx
        visitNeighbors sc node rest
          { state with low_link := dset state.low_link node ll }
      else visitNeighbors sc node rest state

/-- `_strongconnect`: index and push the node, visit its neighbors, and
extract an SCC when the node is a low-link root; the component is recorded
as a cycle when it has more than one member or the node has a self-loop. -/
def strongconnect (graph : Graph) :
    Nat → String → TarjanState → Except TarjanErr TarjanState
  | 0, _, _ => .error .outOfFuel
  | fuel + 1, node, state =>
    let st1 : TarjanState :=
      { index := state.index + 1,
        indices := dset state.indices node state.index,
        low_link := dset state.low_link node state.index,
        on_stack := sadd state.on_stack node,
        stack := node :: state.stack,
        sccs := state.sccs }
    match visitNeighbors (fun n st => strongconnect graph fuel n st) node
        (neighborsSorted graph node) st1 with
    | .error e => .error e
    | .ok st2 =>
      if dget st2.low_link node = dget st2.indices node then
        match extract_scc st2 node with
        | .error e => .error e
        | .ok r =>
          if 1 < r.2.length ∨ node ∈ (List.lookup node graph).getD [] then
            .ok { r.1 with sccs := r.1.sccs ++ [r.2] }
          else .ok r.1
      else .ok st2

/-- The `for node in graph` loop of `find_cycles`: run `_strongconnect`
from every unvisited node. -/
def findCyclesLoop (graph : Graph) (fuel : Nat) :
    List (String × List String) → TarjanState →
    Except TarjanErr TarjanState
  | [], state => .ok state
  | p :: rest, state =>
    if (List.lookup p.1 state.indices).isSome then
      findCyclesLoop graph fuel rest state
    else
      match strongconnect graph fuel p.1 state with
      | .error e => .error e
      | .ok st2 => findCyclesLoop graph fuel rest st2

/-- The initial `_TarjanState`. -/
def initState : TarjanState := ⟨0, [], [], [], [], []⟩

/-- All node names of the graph (keys and neighbor values), de-duplicated. -/
def allNodes (graph : Graph) : List String :=
  (graph.map Prod.fst ++ graph.foldr (fun (p : String × List String) acc => p.2 ++ acc) []).dedup

/-- Fuel that always suffices: one more than the number of nodes (each
nested `_strongconnect` call indexes a previously unindexed node). -/
def tarjanFuel (graph : Graph) : Nat :=
  (allNodes graph).length + 1

/-- `find_cycles`: Tarjan SCCs from every node, in key order. -/
def find_cycles (graph : Graph) : Except TarjanErr (List (List String)) :=
  match findCyclesLoop graph (tarjanFuel graph) graph initState with
  | .error e => .error e
  | .ok st => .ok st.sccs

/-- Lexicographic `≤` on lists of strings (Python list comparison). -/
def strListLe : List String → List String → Bool
  | [], _ => true
  | _ :: _, [] => false
  | a :: as, b :: bs => if a ≠ b then pyStrLt a b else strListLe as bs

/-- The deps generator's post-processing (`deps.py` lines 107–109): sort
each cycle's members, then sort the list of cycles. -/
def deps_sorted_cycles (cycles : List (List String)) : List (List String) :=
  pySorted strListLe (cycles.map fun cycle => pySorted pyStrLe cycle)

/-- An edge of the graph as passed to `find_cycles`. -/
def Edge (graph : Graph) (a b : String) : Prop :=
  b ∈ (List.lookup a graph).getD []

/-- Reachability along zero or more edges. -/
def Reaches (graph : Graph) : String → String → Prop :=
  Relation.ReflTransGen (Edge graph)

/-- A directed graph is acyclic when no edge closes a path back to its
source (this also excludes self-loops). -/
def Acyclic (graph : Graph) : Prop :=
  ∀ a b, Edge graph a b → ¬ Reaches graph b a

/-- Count of graph nodes not yet indexed (the termination measure of the
Tarjan recursion). -/
def unindexedCount (u : List String) (st : TarjanState) : Nat :=
  u.countP fun k => (List.lookup k st.indices).isNone

/-! ## Call-site extraction: callee-expression normalization -/

/-- A tree-sitter syntax node, abstracted to what `_normalize_callee_expr`
inspects: the node's `type`, its decoded source text (`_decode_node_text`),
and the `object`/`attribute` fields returned by `child_by_field_name`
(absent fields are `none`). -/
inductive TSNode where
  | mk (ty : String) (text : String) (obj : Option TSNode)
      (attr : Option TSNode)

/-- `node.type`. -/
def TSNode.ty : TSNode → String
  | .mk t _ _ _ => t

/-- `_decode_node_text(source_bytes, node)`. -/
def TSNode.text : TSNode → String
  | .mk _ s _ _ => s

/-- `node.child_by_field_name("object")`. -/
def TSNode.obj : TSNode → Option TSNode
  | .mk _ _ o _ => o

/-- `node.child_by_field_name("attribute")`. -/
def TSNode.attr : TSNode → Option TSNode
  | .mk _ _ _ a => a

/-- The `placeholder_map` literal of `_normalize_callee_expr`. -/
def placeholder_map : List (String × String) :=
  [("subscript", "<subscript>"), ("call", "<call>"), ("lambda", "<lambda>")]

/-- `_normalize_callee_expr`, with a structural fuel bounding the recursion
into the `object` field (any fuel at least the node depth computes the
same value; exhaustion falls back to the `None` result). -/
def normalize_callee_expr : Nat → Option TSNode → String
  | _, none => "<complex_expr>"
  | 0, some _ => "<complex_expr>"
  | fuel + 1, some n =>
    if n.ty = "identifier" then pyStrip n.text
    else if n.ty = "attribute" then
      let normalized_object := normalize_callee_expr fuel n.obj
      match n.attr with
      | none => "<attribute>"
      | some a =>
        if a.ty ≠ "identifier" then "<attribute>"
        else if pyStartsWith normalized_object "<"
            && pyEndsWith normalized_object ">" then "<attribute>"
        else pyStrip (normalized_object ++ "." ++ pyStrip a.text)
    else (List.lookup n.ty placeholder_map).getD ("<" ++ n.ty ++ ">")

/-- A plain identifier: nonempty, only alphanumerics and underscores. -/
def plainIdent (s : String) : Bool :=
  !s.isEmpty && s.data.all fun c => c.isAlphanum || c = '_'

/-- A dot-joined chain of plain identifiers. -/
inductive IsIdentChain : String → Prop where
  | single {s : String} (h : plainIdent s = true) : IsIdentChain s
  | dotted {s t : String} (hs : IsIdentChain s) (ht : plainIdent t = true) :
      IsIdentChain (s ++ "." ++ t)

/-- A placeholder token of the form `<kind>`. -/
def IsPlaceholder (s : String) : Prop :=
  ∃ k, s = "<" ++ k ++ ">"

/-- Well-formedness of a parse tree to the depth the normalizer explores:
every `identifier` node consulted has a stripped text that is a plain
identifier (guaranteed by the tree-sitter Python grammar). -/
def wfNodeF : Nat → Option TSNode → Bool
  | _, none => true
  | 0, some _ => true
  | fuel + 1, some n =>
    (if n.ty = "identifier" then plainIdent (pyStrip n.text) else true)
      && wfNodeF fuel n.obj
      && (match n.attr with
          | none => true
          | some a =>
            if a.ty = "identifier" then plainIdent (pyStrip a.text)
            else true)

/-! ## Concrete generator fixtures used by witnesses -/

/-- Empty imports (a file with no import statements). -/
def importsEmpty : ImportsData := ⟨[], [], [], []⟩

/-- Symbols of `class Foo: def bar ...; def baz: return self.bar()`. -/
def sidxC3 : SymbolsIndex :=
  [("pkg.mod",
    [⟨"sym:pkg/mod.py::pkg.mod.Foo@L1:C1", "pkg.mod.Foo", "Foo", "class",
      "pkg/mod.py", none⟩,
     ⟨"sym:pkg/mod.py::pkg.mod.Foo.bar@L2:C5", "pkg.mod.Foo.bar", "bar",
      "method", "pkg/mod.py", none⟩,
     ⟨"sym:pkg/mod.py::pkg.mod.Foo.baz@L4:C5", "pkg.mod.Foo.baz", "baz",
      "method", "pkg/mod.py", none⟩])]

/-- Span lookup of the same symbols (from symbols.jsonl). -/
def spanC3 : SpanMap :=
  [(("pkg/mod.py", 1, 1), "sym:pkg/mod.py::pkg.mod.Foo@L1:C1"),
   (("pkg/mod.py", 2, 5), "sym:pkg/mod.py::pkg.mod.Foo.bar@L2:C5"),
   (("pkg/mod.py", 4, 5), "sym:pkg/mod.py::pkg.mod.Foo.baz@L4:C5")]

/-- The calls_raw record of the `self.bar()` call inside `baz`. -/
def crC3 : CallRawRecord :=
  ⟨"ref:pkg/mod.py@L5:C16:call:self.bar", ⟨"pkg/mod.py", 5, 16, 5, 26⟩,
   "self.bar", "symbol:pkg/mod.py:baz@L4:C4", none, "syntax_only"⟩

/-- Name table the refs generator builds for `pkg/mod.py`. -/
def ntC3 : NameTable := build_name_table "pkg/mod.py" midxT2 sidxC3 importsEmpty []

/-- A concrete call site for the calls_raw witness. -/
def siteC7 : CallSite :=
  ⟨"some_func", ⟨"pkg/mod.py", 2, 14, 2, 40⟩, "symbol:pkg/mod.py:f@L1:C0"⟩

/-- The record `calls_raw_generate` produces for `siteC7`. -/
def recC7 : CallRawRecord :=
  ⟨"ref:pkg/mod.py@L2:C14:call:some_func", ⟨"pkg/mod.py", 2, 14, 2, 40⟩,
   "some_func", "symbol:pkg/mod.py:f@L1:C0", none, "syntax_only"⟩

/-- Two concrete refs records (one call, one non-call) for the C6 witness. -/
def refsC6 : List RefRecord :=
  [⟨"ref:pkg/mod.py@L5:C16:call:self.bar", "call", ⟨"pkg/mod.py", 5, 16, 5, 26⟩,
    "pkg.mod", some "sym:pkg/mod.py::pkg.mod.Foo.baz@L4:C5", "self.bar", none,
    ⟨"dynamic_unresolvable", 0⟩, none, none⟩,
   ⟨"ref:pkg/mod.py@L1:C1:name:Foo", "name", ⟨"pkg/mod.py", 1, 1, 1, 4⟩,
    "pkg.mod", none, "Foo", none, ⟨"syntax_only", 0⟩, none, none⟩]

/-- The projection of the first `refsC6` record into the calls artifact. -/
def callC6 : CallRecord :=
  ⟨"ref:pkg/mod.py@L5:C16:call:self.bar", ⟨"pkg/mod.py", 5, 16, 5, 26⟩,
   "self.bar", "pkg.mod", some "sym:pkg/mod.py::pkg.mod.Foo.baz@L4:C5", none,
   none, none, ⟨"dynamic_unresolvable", 0⟩⟩

/-! ## Concrete layers fixtures used by witnesses -/

/-- A concrete layers configuration mirroring the repository's own test
fixture: three layers and a single `interface → [foundation]` rule. -/
def cfgEx : LayersConfig :=
  ⟨[⟨"foundation", ["src/core/**"]⟩, ⟨"interface", ["src/ui/**"]⟩,
    ⟨"integration", ["src/integrations/**"]⟩],
   [⟨"interface", ["foundation"]⟩], "allow"⟩

/-- Concrete module-to-path mapping for the witness. -/
def m2pEx : String → Option String := fun m =>
  if m = "pkg.ui" then some "src/ui/a_view.py"
  else if m = "pkg.int" then some "src/integrations/client.py"
  else none

/-- The violation that `compute_layer_violations` reports on
`[("pkg.ui", "pkg.int")]` under `cfgEx`. -/
def vEx : LayerViolation :=
  ⟨"src/ui/a_view.py", "pkg.int", "interface", some "integration"⟩

/-! # Theorems -/

theorem mem_pyOrderedInsert {le : α → α → Bool} {a x : α} {l : List α} :
    x ∈ pyOrderedInsert le a l ↔ x = a ∨ x ∈ l := by
  induction l with
  | nil => simp [pyOrderedInsert]
  | cons b l ih =>
    simp only [pyOrderedInsert]
    split
    · simp
    · simp only [List.mem_cons, ih]
      tauto

theorem mem_pySorted {le : α → α → Bool} {x : α} {l : List α} :
    x ∈ pySorted le l ↔ x ∈ l := by
  induction l with
  | nil => simp [pySorted]
  | cons a l ih =>
    simp only [pySorted, mem_pyOrderedInsert, List.mem_cons, ih]


theorem compute_layer_violations_eq (edges : List (String × String))
    (cfg : LayersConfig) (m2p : String → Option String)
    (h : (cfg.layer.isEmpty || cfg.rules.isEmpty) = false) :
    compute_layer_violations edges cfg m2p
      = pySorted violationLe
          (edges.foldl (layerViolationStep cfg m2p (build_allowed_deps cfg)) []) := by
  unfold compute_layer_violations
  simp [h]

theorem layerViolationStep_foldl_classified (cfg : LayersConfig)
    (m2p : String → Option String) (allowed : String → Option (List String)) :
    ∀ (edges : List (String × String)) (acc : List LayerViolation),
    (∀ v ∈ acc, classify_layer v.from_file cfg = some v.from_layer) →
    ∀ v ∈ edges.foldl (layerViolationStep cfg m2p allowed) acc,
    classify_layer v.from_file cfg = some v.from_layer := by
  intro edges
  induction edges with
  | nil => intro acc hacc v hv; exact hacc v hv
  | cons e rest ih =>
    intro acc hacc v hv
    simp only [List.foldl_cons] at hv
    refine ih _ ?_ v hv
    intro w hw
    simp only [layerViolationStep] at hw
    split at hw
    · exact hacc w hw
    · rename_i source_path hsp
      split at hw
      · exact hacc w hw
      · rename_i fl hfl
        split at hw
        · rw [List.mem_append] at hw
          rcases hw with hw | hw
          · exact hacc w hw
          · simp only [List.mem_singleton] at hw
            subst hw
            exact hfl
        · exact hacc w hw

/-- C1 (counterexample).  With the fixture's allow-list and the
`unclassified="deny"` policy, an edge whose *source* is unclassified is not
flagged, while an edge from the classified `interface` layer to an
unclassified *target* is flagged — the opposite of the claimed asymmetry. -/
theorem c1_unclassified_policy_counterexample :
    is_violation none (some "interface") (build_allowed_deps cfgEx) "deny" = false
    ∧ is_violation (some "interface") none (build_allowed_deps cfgEx) "deny" = true := by
  constructor <;> rfl

/-- C1 (amended).  Under `deny` an edge whose source module is unclassified
is never flagged by `is_violation`, an edge from any classified source to an
unclassified target is always flagged, under `allow`/`ignore` no edge
touching an unclassified module is flagged, and every violation reported by
`compute_layer_violations` has a classified source path (unclassified
sources are never reported). -/
theorem c1_unclassified_policy_amended :
    (∀ (tl : Option String) (allowed : String → Option (List String)),
      is_violation none tl allowed "deny" = false)
    ∧ (∀ (fl : String) (allowed : String → Option (List String)),
      is_violation (some fl) none allowed "deny" = true)
    ∧ (∀ (u : String) (fl tl : Option String)
        (allowed : String → Option (List String)),
      (u = "allow" ∨ u = "ignore") → (fl = none ∨ tl = none) →
      is_violation fl tl allowed u = false)
    ∧ (∀ (edges : List (String × String)) (cfg : LayersConfig)
        (m2p : String → Option String) (v : LayerViolation),
      v ∈ compute_layer_violations edges cfg m2p →
      classify_layer v.from_file cfg = some v.from_layer) := by
  refine ⟨?_, ?_, ?_, ?_⟩
  · intro tl allowed
    cases tl <;> rfl
  · intro fl allowed
    rfl
  · intro u fl tl allowed hu hn
    have hu' : (u = "allow" || u = "ignore") = true := by
      rcases hu with h | h <;> simp [h]
    rcases hn with h | h
    · subst h; cases tl <;> simp [is_violation, hu']
    · subst h; cases fl <;> simp [is_violation, hu']
  · intro edges cfg m2p v hv
    simp only [compute_layer_violations] at hv
    split at hv
    · simp at hv
    · rw [mem_pySorted] at hv
      exact layerViolationStep_foldl_classified cfg m2p (build_allowed_deps cfg)
        edges [] (by intro w hw; simp at hw) v hv

/-- C1 (witness): the amended theorem applied at concrete inputs. -/
theorem c1_unclassified_policy_witness :
    is_violation none (some "interface") (fun _ => none) "deny" = false
    ∧ is_violation (some "interface") none (fun _ => none) "deny" = true
    ∧ is_violation none (some "c") (fun _ => none) "allow" = false
    ∧ classify_layer vEx.from_file cfgEx = some vEx.from_layer :=
  ⟨c1_unclassified_policy_amended.1 (some "interface") (fun _ => none),
   c1_unclassified_policy_amended.2.1 "interface" (fun _ => none),
   c1_unclassified_policy_amended.2.2.1 "allow" none (some "c") (fun _ => none)
     (Or.inl rfl) (Or.inl rfl),
   c1_unclassified_policy_amended.2.2.2 [("pkg.ui", "pkg.int")] cfgEx m2pEx vEx
     (by rw [compute_layer_violations_eq _ _ _ (by decide), mem_pySorted]; decide)⟩

theorem lookup_none_of_forall_ne {k : String} {l : List (String × String)}
    (h : ∀ e ∈ l, e.1 ≠ k) : List.lookup k l = none := by
  induction l with
  | nil => rfl
  | cons e rest ih =>
    simp only [List.lookup]
    have hne := h e (List.mem_cons_self e rest)
    have hek : (k == e.1) = false := beq_eq_false_iff_ne.mpr fun hk => hne hk.symm
    rw [hek]
    exact ih fun x hx => h x (List.mem_cons_of_mem e hx)

theorem invert_modules_index_keys {midx : ModulesIndex} {k : String}
    (h : ∀ pm ∈ midx, pm.2 ≠ k) :
    List.lookup k (invert_modules_index midx) = none := by
  unfold invert_modules_index
  have hsorted : ∀ pm ∈ pySorted strPairLe midx, pm.2 ≠ k := by
    intro pm hpm
    exact h pm (mem_pySorted.mp hpm)
  apply lookup_none_of_forall_ne
  have main : ∀ (l : List (String × String)) (acc : List (String × String)),
      (∀ e ∈ acc, e.1 ≠ k) → (∀ pm ∈ l, pm.2 ≠ k) →
      ∀ e ∈ l.foldl
        (fun acc pm =>
          if (List.lookup pm.2 acc).isSome then acc else acc ++ [(pm.2, pm.1)])
        acc, e.1 ≠ k := by
    intro l
    induction l with
    | nil => intro acc hacc _ e he; exact hacc e he
    | cons pm rest ih =>
      intro acc hacc hl e he
      simp only [List.foldl_cons] at he
      refine ih _ ?_ (fun x hx => hl x (List.mem_cons_of_mem pm hx)) e he
      intro x hx
      split at hx
      · exact hacc x hx
      · rw [List.mem_append] at hx
        rcases hx with hx | hx
        · exact hacc x hx
        · simp only [List.mem_singleton] at hx
          subst hx
          exact hl pm (List.mem_cons_self pm rest)
  exact main (pySorted strPairLe midx) [] (by intro e he; simp at he) hsorted

/-- C5: with the local name `mod` bound to module `pkg.mod` (as
`import pkg.mod as mod` produces), the full expression unbound, and
`pkg.mod.missing_fn` not a known module, `resolve_call "mod.missing_fn"`
returns the first-class partial outcome: `resolved_to = none`,
`resolved_base_to.qualified_name = "pkg.mod"`, `member = "missing_fn"`. -/
theorem c5_partial_resolution (nt : NameTable) (midx : ModulesIndex)
    (b : NameBinding)
    (hmod : nt "mod" = some b) (hqn : b.qualified_name = "pkg.mod")
    (hfull : nt "mod.missing_fn" = none)
    (hnomod : ∀ pm ∈ midx, pm.2 ≠ "pkg.mod.missing_fn") :
    resolve_call "mod.missing_fn" nt midx
      = (none, some (binding_to_resolved b midx), some "missing_fn",
         b.strategy, b.confidence)
    ∧ (binding_to_resolved b midx).qualified_name = "pkg.mod" := by
  constructor
  · have hstrip : pyStrip "mod.missing_fn" = "mod.missing_fn" := rfl
    have hparts : pySplitChar "mod.missing_fn" '.' = ["mod", "missing_fn"] := rfl
    have hcons : consumeModules (invert_modules_index midx) b.qualified_name
        ["missing_fn"] = (b.qualified_name, 0) := by
      have hlk : List.lookup ("pkg.mod" ++ "." ++ "missing_fn")
          (invert_modules_index midx) = none := by
        have happ : ("pkg.mod" ++ "." ++ "missing_fn" : String)
            = "pkg.mod.missing_fn" := rfl
        rw [happ]
        exact invert_modules_index_keys hnomod
      unfold consumeModules
      rw [hqn]
      simp only [hlk, Option.isSome_none, Bool.false_eq_true, if_false]
    unfold resolve_call
    rw [hstrip]
    rw [if_neg (by decide)]
    rw [hfull]
    rw [hparts]
    rw [if_neg (by decide)]
    unfold findPrefixBinding
    have h1 : String.intercalate "." (["mod", "missing_fn"].take 1) = "mod" := rfl
    simp only [List.length_cons, List.length_nil]
    rw [h1, hmod]
    simp only [List.drop_succ_cons, List.drop_zero]
    rw [hcons]
    rfl
  · rw [binding_to_resolved, hqn]

theorem rccc_super_dispatch (expr : String) (eid : Option String)
    (nt : NameTable) (midx : ModulesIndex) (sidx : SymbolsIndex) (m : String)
    (H0 : pySplitChar (pyStrip expr) '.' = ["super()", m]) :
    resolve_call_class_context expr eid nt midx sidx
      = resolveSuperBranch m eid nt midx sidx := by
  have hne : ¬ (pyStrip expr = "") := by
    intro hc
    rw [hc] at H0
    have hsplit : pySplitChar "" '.' = [""] := rfl
    rw [hsplit] at H0
    exact absurd (List.cons.injEq .. ▸ H0).1 (by decide)
  simp only [resolve_call_class_context, H0, if_neg hne]
  simp only [List.length_cons, List.length_nil, List.headD_cons,
    List.drop_succ_cons, List.drop_zero]
  rw [if_neg (by omega)]
  rw [if_neg (by simp)]
  rw [if_neg (by simp)]
  rw [if_pos (by simp)]

/-- C4: for a `super().<method>` call inside a known class,
`resolve_call_class_context` returns unresolved whenever the class has two
or more base classes; it returns a full resolution to the base method, with
strategy `class_super_method` and confidence 65, exactly when the class has
one base that resolves to a known class defining the method. -/
theorem c4_super_resolution (expr : String) (eid : Option String)
    (nt : NameTable) (midx : ModulesIndex) (sidx : SymbolsIndex) (m : String)
    (ctx : ClassContext) (csym : SymbolInfo)
    (H0 : pySplitChar (pyStrip expr) '.' = ["super()", m])
    (Hctx : find_enclosing_class eid sidx = some ctx)
    (Hcls : find_class_by_qname ctx.class_qualified_name sidx = some csym) :
    (∀ bases, csym.base_classes = some bases → 2 ≤ bases.length →
      resolve_call_class_context expr eid nt midx sidx = none)
    ∧ (∀ bn bq msym, csym.base_classes = some [bn] →
      resolve_base_class_qname bn ctx.class_module nt sidx = some bq →
      find_method_in_class bq m sidx = some msym →
      resolve_call_class_context expr eid nt midx sidx
        = some (some ⟨msym.symbol_id, msym.qualified_name, "method", 65,
            some msym.path, List.lookup msym.path midx⟩,
          none, none, "class_super_method", 65))
    ∧ (∀ r rt, resolve_call_class_context expr eid nt midx sidx = some r →
      r.1 = some rt →
      ∃ bn bq msym, csym.base_classes = some [bn]
        ∧ resolve_base_class_qname bn ctx.class_module nt sidx = some bq
        ∧ find_method_in_class bq m sidx = some msym
        ∧ rt = ⟨msym.symbol_id, msym.qualified_name, "method", 65,
            some msym.path, List.lookup msym.path midx⟩
        ∧ r.2.2.2.1 = "class_super_method" ∧ r.2.2.2.2 = 65) := by
  rw [rccc_super_dispatch expr eid nt midx sidx m H0]
  refine ⟨?_, ?_, ?_⟩
  · intro bases hbc hlen
    unfold resolveSuperBranch
    rw [Hctx]
    dsimp only
    rw [Hcls]
    dsimp only
    rw [hbc]
    dsimp only
    rw [if_neg (by intro hc; rw [List.isEmpty_iff] at hc; subst hc; simp at hlen)]
    rw [if_pos (by omega)]
  · intro bn bq msym hbc hbase hmeth
    unfold resolveSuperBranch
    rw [Hctx]
    dsimp only
    rw [Hcls]
    dsimp only
    rw [hbc]
    dsimp only
    rw [if_neg (by simp)]
    rw [if_neg (by simp)]
    simp only [List.headD_cons]
    rw [hbase]
    dsimp only
    rw [hmeth]
    rfl
  · intro r rt hr hrt
    unfold resolveSuperBranch at hr
    rw [Hctx] at hr
    dsimp only at hr
    rw [Hcls] at hr
    dsimp only at hr
    cases hbc : csym.base_classes with
    | none => rw [hbc] at hr; exact absurd hr (by simp)
    | some bases =>
      rw [hbc] at hr
      dsimp only at hr
      cases bases with
      | nil => rw [if_pos (by decide)] at hr; exact absurd hr (by simp)
      | cons bn tb =>
        cases tb with
        | cons b1 t2 =>
          rw [if_neg (by simp)] at hr
          rw [if_pos (by simp only [List.length_cons]; omega)] at hr
          exact absurd hr (by simp)
        | nil =>
          rw [if_neg (by simp)] at hr
          rw [if_neg (by simp)] at hr
          simp only [List.headD_cons] at hr
          cases hbase : resolve_base_class_qname bn ctx.class_module nt sidx with
          | none => rw [hbase] at hr; exact absurd hr (by simp)
          | some bq =>
            rw [hbase] at hr
            dsimp only at hr
            cases hmeth : find_method_in_class bq m sidx with
            | some msym =>
              rw [hmeth] at hr
              have hr' := hr.symm
              simp only [Option.some.injEq] at hr'
              subst hr'
              simp only [Option.some.injEq] at hrt
              refine ⟨bn, bq, msym, rfl, hbase, hmeth, ?_, rfl, rfl⟩
              rw [← hrt]
              rfl
            | none =>
              rw [hmeth] at hr
              dsimp only at hr
              cases hbcs : find_class_by_qname bq sidx with
              | some base_class_symbol =>
                rw [hbcs] at hr
                have hr' := hr.symm
                simp only [Option.some.injEq] at hr'
                subst hr'
                simp at hrt
              | none => rw [hbcs] at hr; exact absurd hr (by simp)

/-- C4 (witness): the theorem applied to the concrete single-base fixture
(`class Child(Base)` resolves `super().run` fully to `pkg.mod.Base.run`)
and to the two-base fixture (`class C(A, B)` resolves to nothing). -/
theorem c4_super_resolution_witness :
    resolve_call_class_context "super().run"
      (some "sym:pkg/mod.py::pkg.mod.Child.run@L6:C5") ntSuper1 midxT2
      sidxSuper1
      = some (some ⟨"sym:pkg/mod.py::pkg.mod.Base.run@L2:C5",
          "pkg.mod.Base.run", "method", 65, some "pkg/mod.py",
          some "pkg.mod"⟩, none, none, "class_super_method", 65)
    ∧ resolve_call_class_context "super().run"
      (some "sym:pkg/mod.py::pkg.mod.C.run@L6:C5") (fun _ => none) midxT2
      sidxSuperN = none :=
  ⟨(c4_super_resolution "super().run"
      (some "sym:pkg/mod.py::pkg.mod.Child.run@L6:C5") ntSuper1 midxT2
      sidxSuper1 "run"
      ⟨"pkg.mod.Child", "sym:pkg/mod.py::pkg.mod.Child@L5:C1", "pkg/mod.py",
       "pkg.mod"⟩
      ⟨"sym:pkg/mod.py::pkg.mod.Child@L5:C1", "pkg.mod.Child", "Child",
       "class", "pkg/mod.py", some ["Base"]⟩
      (by decide) (by decide) (by decide)).2.1 "Base" "pkg.mod.Base"
      ⟨"sym:pkg/mod.py::pkg.mod.Base.run@L2:C5", "pkg.mod.Base.run", "run",
       "method", "pkg/mod.py", none⟩
      (by decide) (by decide) (by decide),
   (c4_super_resolution "super().run"
      (some "sym:pkg/mod.py::pkg.mod.C.run@L6:C5") (fun _ => none) midxT2
      sidxSuperN "run"
      ⟨"pkg.mod.C", "sym:pkg/mod.py::pkg.mod.C@L5:C1", "pkg/mod.py",
       "pkg.mod"⟩
      ⟨"sym:pkg/mod.py::pkg.mod.C@L5:C1", "pkg.mod.C", "C", "class",
       "pkg/mod.py", some ["A", "B"]⟩
      (by decide) (by decide) (by decide)).1 ["A", "B"] (by decide)
      (by decide)⟩

/-- C5 (witness): the theorem applied to the name table that
`build_name_table` produces for `import pkg.mod as mod`. -/
theorem c5_partial_resolution_witness :
    ntC5 "mod" = some bC5
    ∧ ntC5 "mod.missing_fn" = none
    ∧ resolve_call "mod.missing_fn" ntC5 midxC5
      = (none, some (binding_to_resolved bC5 midxC5), some "missing_fn",
         bC5.strategy, bC5.confidence)
    ∧ (binding_to_resolved bC5 midxC5).qualified_name = "pkg.mod" :=
  ⟨by decide, by decide,
   (c5_partial_resolution ntC5 midxC5 bC5 (by decide) (by decide) (by decide)
     (by decide)).1,
   (c5_partial_resolution ntC5 midxC5 bC5 (by decide) (by decide) (by decide)
     (by decide)).2⟩

theorem mkRefId_call_inline (p : String) (l c : Nat) (e : String) :
    "ref:" ++ p ++ "@L" ++ toString l ++ ":C" ++ toString c ++ ":call:" ++ e
      = mkRefId p l c "call" e := by
  unfold mkRefId
  have h : ∀ A : String, A ++ ":call:" ++ e = A ++ ":" ++ "call" ++ ":" ++ e := by
    intro A
    have h1 : A ++ ":" ++ "call" ++ ":" = A ++ ":call:" := by
      rw [String.append_assoc, String.append_assoc]
      rfl
    rw [h1]
  exact h ("ref:" ++ p ++ "@L" ++ toString l ++ ":C" ++ toString c)

/-- C3: on the class-fixture file (`class Foo` with methods `bar` and `baz`
where `baz` calls `self.bar()`), the refs pipeline emits the call with
`resolved_to = None` and strategy `dynamic_unresolvable` — Tier 2 is never
applied by `RefsGenerator.generate` — even though
`resolve_call_class_context` on the very same inputs resolves `self.bar`
fully to `pkg.mod.Foo.bar` with strategy `class_self_method`, confidence
70, as the claim (and the repository's own end-to-end test
`test_end_to_end_self_method_resolution`) requires. -/
theorem c3_tier2_not_applied_in_pipeline :
    refs_generate [⟨"pkg/mod.py", importsEmpty, []⟩] midxT2 sidxC3 spanC3
      [crC3]
      = [⟨"ref:pkg/mod.py@L5:C16:call:self.bar", "call",
          ⟨"pkg/mod.py", 5, 16, 5, 26⟩, "pkg.mod",
          some "sym:pkg/mod.py::pkg.mod.Foo.baz@L4:C5", "self.bar", none,
          ⟨"dynamic_unresolvable", 0⟩, none, none⟩]
    ∧ resolve_call_class_context "self.bar"
        (some "sym:pkg/mod.py::pkg.mod.Foo.baz@L4:C5") ntC3 midxT2 sidxC3
      = some (some ⟨"sym:pkg/mod.py::pkg.mod.Foo.bar@L2:C5",
          "pkg.mod.Foo.bar", "method", 70, some "pkg/mod.py",
          some "pkg.mod"⟩, none, none, "class_self_method", 70) := by
  constructor
  · decide
  · decide

/-- C6: every record of the calls artifact takes its `ref_id` from a refs
record with `ref_kind = "call"`; the projection never introduces a new
`ref_id`, so the calls `ref_id` set is a subset of the refs `ref_id`
set. -/
theorem c6_calls_ref_ids_subset (refs_records : List RefRecord) :
    ∀ c ∈ calls_generate refs_records,
    ∃ r ∈ refs_records, r.ref_kind = "call" ∧ c.ref_id = r.ref_id := by
  intro c hc
  unfold calls_generate at hc
  rw [List.mem_filterMap] at hc
  obtain ⟨r, hr, hmap⟩ := hc
  by_cases hk : r.ref_kind = "call"
  · rw [if_pos hk] at hmap
    simp only [Option.some.injEq] at hmap
    subst hmap
    exact ⟨r, hr, hk, rfl⟩
  · rw [if_neg hk] at hmap
    exact absurd hmap (by simp)

/-- C6 (witness): the subset theorem applied to a concrete refs artifact. -/
theorem c6_calls_ref_ids_subset_witness :
    callC6 ∈ calls_generate refsC6
    ∧ ∃ r ∈ refsC6, r.ref_kind = "call" ∧ callC6.ref_id = r.ref_id :=
  ⟨by decide, c6_calls_ref_ids_subset refsC6 callC6 (by decide)⟩

theorem refs_generate_file_ref_id (module_name : String) (nt : NameTable)
    (midx : ModulesIndex) (sbs : SpanMap) (crs : List CallRawRecord) :
    ∀ rec ∈ refs_generate_file module_name nt midx sbs crs,
    rec.ref_id = mkRefId rec.src_span.path rec.src_span.start_line
      rec.src_span.start_col rec.ref_kind rec.expr := by
  intro rec hrec
  unfold refs_generate_file at hrec
  rw [List.mem_filterMap] at hrec
  obtain ⟨cr, hcr, hmap⟩ := hrec
  by_cases he : pyStrip cr.callee_expr = ""
  · rw [if_pos he] at hmap
    exact absurd hmap (by simp)
  · rw [if_neg he] at hmap
    simp only [Option.some.injEq] at hmap
    subst hmap
    exact mkRefId_call_inline cr.src_span.path cr.src_span.start_line
      cr.src_span.start_col (pyStrip cr.callee_expr)

/-- C7: for every record emitted by the calls_raw generator and by the refs
generator, recomputing `ref:{path}@L{line}:C{col}:{ref_kind}:{expr}` from
that record's own span, kind and expression fields yields exactly the
stored `ref_id`. -/
theorem c7_ref_id_reproducible :
    (∀ (call_sites : List CallSite),
      ∀ rec ∈ calls_raw_generate call_sites,
      rec.ref_id = mkRefId rec.src_span.path rec.src_span.start_line
        rec.src_span.start_col "call" rec.callee_expr)
    ∧ (∀ (files : List RefsFileInput) (midx : ModulesIndex)
        (sidx : SymbolsIndex) (sbs : SpanMap) (crs : List CallRawRecord),
      ∀ rec ∈ refs_generate files midx sidx sbs crs,
      rec.ref_id = mkRefId rec.src_span.path rec.src_span.start_line
        rec.src_span.start_col rec.ref_kind rec.expr) := by
  constructor
  · intro call_sites rec hrec
    unfold calls_raw_generate at hrec
    rw [mem_pySorted, List.mem_map] at hrec
    obtain ⟨site, hsite, hmap⟩ := hrec
    subst hmap
    exact mkRefId_call_inline site.src_span.path site.src_span.start_line
      site.src_span.start_col (pyStrip site.callee_expr)
  · intro files midx sidx sbs crs rec hrec
    unfold refs_generate at hrec
    rw [mem_pySorted] at hrec
    have main : ∀ (fs : List RefsFileInput) (acc : List RefRecord),
        (∀ r ∈ acc, r.ref_id = mkRefId r.src_span.path r.src_span.start_line
          r.src_span.start_col r.ref_kind r.expr) →
        ∀ r ∈ fs.foldl
          (fun acc file =>
            match List.lookup file.path midx with
            | none => acc
            | some module_name =>
              acc ++ refs_generate_file module_name
                (build_name_table file.path midx sidx file.imports
                  file.aliases) midx sbs (calls_by_path crs file.path))
          acc,
        r.ref_id = mkRefId r.src_span.path r.src_span.start_line
          r.src_span.start_col r.ref_kind r.expr := by
      intro fs
      induction fs with
      | nil => intro acc hacc r hr; exact hacc r hr
      | cons f rest ih =>
        intro acc hacc r hr
        simp only [List.foldl_cons] at hr
        refine ih _ ?_ r hr
        intro w hw
        cases hlk : List.lookup f.path midx with
        | none => rw [hlk] at hw; exact hacc w hw
        | some module_name =>
          rw [hlk] at hw
          rw [List.mem_append] at hw
          rcases hw with hw | hw
          · exact hacc w hw
          · exact refs_generate_file_ref_id module_name _ midx sbs _ w hw
    exact main files [] (by intro r hr; simp at hr) rec hrec

/-- C7 (witness): the theorem applied to concrete generator runs. -/
theorem c7_ref_id_reproducible_witness :
    recC7 ∈ calls_raw_generate [siteC7]
    ∧ recC7.ref_id = mkRefId recC7.src_span.path recC7.src_span.start_line
        recC7.src_span.start_col "call" recC7.callee_expr
    ∧ ∀ rec ∈ refs_generate [⟨"pkg/mod.py", importsEmpty, []⟩] midxT2 sidxC3
        spanC3 [crC3],
      rec.ref_id = mkRefId rec.src_span.path rec.src_span.start_line
        rec.src_span.start_col rec.ref_kind rec.expr :=
  ⟨by decide,
   c7_ref_id_reproducible.1 [siteC7] recC7 (by decide),
   c7_ref_id_reproducible.2 [⟨"pkg/mod.py", importsEmpty, []⟩] midxT2 sidxC3
     spanC3 [crC3]⟩

theorem extractLoop_scc_mem (root : String) :
    ∀ (stack on_stack acc : List String), root ∈ stack ∨ root ∈ acc →
    root ∈ (extractLoop root stack on_stack acc).2.2 := by
  intro stack
  induction stack with
  | nil =>
    intro on_stack acc h
    rcases h with h | h
    · simp at h
    · simpa [extractLoop] using h
  | cons w rest ih =>
    intro on_stack acc h
    simp only [extractLoop]
    by_cases hw : w = root
    · rw [if_pos hw]
      simp [hw]
    · rw [if_neg hw]
      refine ih _ _ ?_
      rcases h with h | h
      · rcases List.mem_cons.mp h with h1 | h1
        · exact absurd h1.symm hw
        · exact Or.inl h1
      · exact Or.inr (List.mem_append_left _ h)

theorem extractLoop_scc_subset (root : String) :
    ∀ (stack on_stack acc : List String),
    ∀ x ∈ (extractLoop root stack on_stack acc).2.2, x ∈ acc ∨ x ∈ stack := by
  intro stack
  induction stack with
  | nil =>
    intro on_stack acc x hx
    simp only [extractLoop] at hx
    exact Or.inl hx
  | cons w rest ih =>
    intro on_stack acc x hx
    simp only [extractLoop] at hx
    by_cases hw : w = root
    · rw [if_pos hw] at hx
      rcases List.mem_append.mp hx with h1 | h1
      · exact Or.inl h1
      · simp only [List.mem_singleton] at h1
        exact Or.inr (h1 ▸ List.mem_cons_self w rest)
    · rw [if_neg hw] at hx
      rcases ih _ _ x hx with h1 | h1
      · rcases List.mem_append.mp h1 with h2 | h2
        · exact Or.inl h2
        · simp only [List.mem_singleton] at h2
          exact Or.inr (h2 ▸ List.mem_cons_self w rest)
      · exact Or.inr (List.mem_cons_of_mem w h1)

theorem extract_scc_ok_of_mem {st : TarjanState} {root : String}
    (h : root ∈ st.stack) : ∃ pr, extract_scc st root = .ok pr := by
  unfold extract_scc
  rw [if_pos (extractLoop_scc_mem root st.stack st.on_stack [] (Or.inl h))]
  exact ⟨_, rfl⟩

theorem extract_scc_error_of_notMem {st : TarjanState} {root : String}
    (h : root ∉ st.stack) :
    extract_scc st root
      = .error (.invariantViolation (tarjanInvariantMsg root)) := by
  unfold extract_scc
  rw [if_neg]
  intro hmem
  rcases extractLoop_scc_subset root st.stack st.on_stack [] root hmem with h1 | h1
  · simp at h1
  · exact h h1

theorem extractLoop_keeps (root : String) :
    ∀ (ext rest on_stack acc : List String),
    rest <:+ (extractLoop root (ext ++ root :: rest) on_stack acc).1 := by
  intro ext
  induction ext with
  | nil =>
    intro rest on_stack acc
    simp only [List.nil_append, extractLoop, if_pos rfl]
    exact List.suffix_refl rest
  | cons e ext2 ih =>
    intro rest on_stack acc
    simp only [List.cons_append, extractLoop]
    by_cases he : e = root
    · rw [if_pos he]
      exact ⟨ext2 ++ [root], by simp⟩
    · rw [if_neg he]
      exact ih rest _ _

theorem extract_scc_stack_suffix {st st' : TarjanState} {root : String}
    {scc old : List String} (hsuf : root :: old <:+ st.stack)
    (h : extract_scc st root = .ok (st', scc)) : old <:+ st'.stack := by
  obtain ⟨ext, hext⟩ := hsuf
  simp only [extract_scc] at h
  split at h
  · simp only [Except.ok.injEq, Prod.mk.injEq] at h
    have hst : st'.stack
        = (extractLoop root st.stack st.on_stack []).1 := by
      rw [← h.1]
    rw [hst, ← hext]
    exact extractLoop_keeps root ext old st.on_stack []
  · exact absurd h (by simp)

theorem visitNeighbors_suffix
    {sc : String → TarjanState → Except TarjanErr TarjanState} {node : String}
    (hsc : ∀ n stx stx', sc n stx = .ok stx' → stx.stack <:+ stx'.stack) :
    ∀ (ns : List String) (st st' : TarjanState),
    visitNeighbors sc node ns st = .ok st' → st.stack <:+ st'.stack := by
  intro ns
  induction ns with
  | nil =>
    intro st st' h
    simp only [visitNeighbors, Except.ok.injEq] at h
    exact h ▸ List.suffix_refl _
  | cons neighbor rest ih =>
    intro st st' h
    simp only [visitNeighbors] at h
    split at h
    · split at h
      · exact absurd h (by simp)
      · rename_i st2 hsc2
        have h1 := hsc neighbor st st2 hsc2
        have h2 := ih _ _ h
        exact h1.trans h2
    · split at h
      · have h3 := ih _ _ h
        exact h3
      · have h3 := ih _ _ h
        exact h3

theorem strongconnect_stack_suffix (graph : Graph) :
    ∀ (fuel : Nat) (node : String) (st st' : TarjanState),
    strongconnect graph fuel node st = .ok st' → st.stack <:+ st'.stack := by
  intro fuel
  induction fuel with
  | zero => intro node st st' h; exact absurd h (by simp [strongconnect])
  | succ fuel ih =>
    intro node st st' h
    simp only [strongconnect] at h
    split at h
    · exact absurd h (by simp)
    · rename_i st2 hv
      have hsuf2 : node :: st.stack <:+ st2.stack :=
        visitNeighbors_suffix (fun n stx stx' hx => ih n stx stx' hx) _ _ _ hv
      have hsuf1 : st.stack <:+ node :: st.stack := ⟨[node], rfl⟩
      split at h
      · split at h
        · exact absurd h (by simp)
        · rename_i r hex
          have hold : st.stack <:+ r.1.stack :=
            extract_scc_stack_suffix hsuf2
              (show extract_scc st2 node = .ok (r.1, r.2) by rw [hex])
          split at h
          · simp only [Except.ok.injEq] at h
            rw [← h]
            exact hold
          · simp only [Except.ok.injEq] at h
            rw [← h]
            exact hold
      · simp only [Except.ok.injEq] at h
        rw [← h]
        exact hsuf1.trans hsuf2

theorem visitNeighbors_no_violation
    {sc : String → TarjanState → Except TarjanErr TarjanState} {node : String}
    (hsc : ∀ n stx msg, sc n stx ≠ .error (.invariantViolation msg)) :
    ∀ (ns : List String) (st : TarjanState) (msg : String),
    visitNeighbors sc node ns st ≠ .error (.invariantViolation msg) := by
  intro ns
  induction ns with
  | nil => intro st msg h; simp [visitNeighbors] at h
  | cons neighbor rest ih =>
    intro st msg h
    simp only [visitNeighbors] at h
    split at h
    · split at h
      · rename_i e hsc2
        simp only [Except.error.injEq] at h
        exact hsc neighbor st msg (by rw [hsc2, h])
      · exact ih _ msg h
    · split at h
      · exact ih _ msg h
      · exact ih _ msg h

theorem strongconnect_no_violation (graph : Graph) :
    ∀ (fuel : Nat) (node : String) (st : TarjanState) (msg : String),
    strongconnect graph fuel node st ≠ .error (.invariantViolation msg) := by
  intro fuel
  induction fuel with
  | zero => intro node st msg h; simp [strongconnect] at h
  | succ fuel ih =>
    intro node st msg h
    simp only [strongconnect] at h
    split at h
    · rename_i e hv
      simp only [Except.error.injEq] at h
      exact visitNeighbors_no_violation (fun n stx m hx => ih n stx m hx) _ _
        msg (by rw [hv, h])
    · rename_i st2 hv
      have hsuf2 : node :: st.stack <:+ st2.stack :=
        visitNeighbors_suffix
          (fun n stx stx' hx => strongconnect_stack_suffix graph fuel n stx stx' hx)
          _ _ _ hv
      have hmem : node ∈ st2.stack :=
        hsuf2.subset (List.mem_cons_self node st.stack)
      split at h
      · split at h
        · rename_i e hex
          obtain ⟨pr, hex2⟩ := extract_scc_ok_of_mem hmem
          rw [hex2] at hex
          exact absurd hex (by simp)
        · split at h
          · exact absurd h (by simp)
          · exact absurd h (by simp)
      · exact absurd h (by simp)

theorem findCyclesLoop_no_violation (graph : Graph) (fuel : Nat) :
    ∀ (nodes : List (String × List String)) (st : TarjanState) (msg : String),
    findCyclesLoop graph fuel nodes st
      ≠ .error (.invariantViolation msg) := by
  intro nodes
  induction nodes with
  | nil => intro st msg h; simp [findCyclesLoop] at h
  | cons p rest ih =>
    intro st msg h
    simp only [findCyclesLoop] at h
    split at h
    · exact ih st msg h
    · split at h
      · rename_i e hsc
        simp only [Except.error.injEq] at h
        exact strongconnect_no_violation graph fuel p.1 st msg (by rw [hsc, h])
      · rename_i st2 hsc
        exact ih st2 msg h

/-- C9: whenever `_strongconnect` begins SCC extraction at a root, that root
is on the Tarjan stack, so `find_cycles` can never surface the
"root node not found in stack" `RuntimeError` — the error branch is
unreachable; and if the invariant were violated (a root missing from the
stack handed to `_extract_scc`), the code raises the unrecoverable error
rather than returning a degraded component. -/
theorem c9_extraction_invariant :
    (∀ (graph : Graph) (msg : String),
      find_cycles graph ≠ .error (.invariantViolation msg))
    ∧ (∀ (st : TarjanState) (root : String), root ∉ st.stack →
      extract_scc st root
        = .error (.invariantViolation (tarjanInvariantMsg root))) := by
  constructor
  · intro graph msg h
    unfold find_cycles at h
    split at h
    · rename_i e hl
      simp only [Except.error.injEq] at h
      exact findCyclesLoop_no_violation graph (tarjanFuel graph) graph
        initState msg (by rw [hl, h])
    · exact absurd h (by simp)
  · intro st root h
    exact extract_scc_error_of_notMem h

/-- C9 (witness): the theorem applied to a concrete graph and a concrete
state with an absent root. -/
theorem c9_extraction_invariant_witness :
    find_cycles [("a", ["b"]), ("b", ["a"])]
      ≠ .error (.invariantViolation "boom")
    ∧ "a" ∉ initState.stack
    ∧ extract_scc initState "a"
      = .error (.invariantViolation (tarjanInvariantMsg "a")) :=
  ⟨c9_extraction_invariant.1 [("a", ["b"]), ("b", ["a"])] "boom",
   by decide,
   c9_extraction_invariant.2 initState "a" (by decide)⟩

theorem dset_lookup (k : String) (v : Nat) :
    ∀ (d : List (String × Nat)) (k' : String),
    List.lookup k' (dset d k v)
      = if k' = k then some v else List.lookup k' d := by
  intro d
  induction d with
  | nil =>
    intro k'
    by_cases h : k' = k
    · subst h
      simp [dset, List.lookup]
    · rw [if_neg h]
      simp [dset, List.lookup, beq_eq_false_iff_ne.mpr h]
  | cons p rest ih =>
    intro k'
    obtain ⟨k0, v0⟩ := p
    simp only [dset]
    by_cases h0 : k0 = k
    · rw [if_pos h0]
      subst h0
      by_cases h : k' = k0
      · subst h
        simp [List.lookup]
      · rw [if_neg h]
        have hb : (k' == k0) = false := beq_eq_false_iff_ne.mpr h
        simp [List.lookup, hb]
    · rw [if_neg h0]
      by_cases h : k' = k0
      · subst h
        rw [if_neg h0]
        simp [List.lookup]
      · have hb : (k' == k0) = false := beq_eq_false_iff_ne.mpr h
        simp only [List.lookup, hb]
        exact ih k'

theorem dset_self {d : List (String × Nat)} {k : String} {v : Nat}
    (h : List.lookup k d = some v) : dset d k v = d := by
  induction d with
  | nil => simp [List.lookup] at h
  | cons p rest ih =>
    obtain ⟨k0, v0⟩ := p
    simp only [dset]
    by_cases h0 : k0 = k
    · subst h0
      rw [if_pos rfl]
      simp only [List.lookup, beq_self_eq_true] at h
      simp only [Option.some.injEq] at h
      rw [← h]
    · rw [if_neg h0]
      have hb : (k == k0) = false := beq_eq_false_iff_ne.mpr fun hk => h0 hk.symm
      simp only [List.lookup, hb] at h
      rw [ih h]

theorem sadd_of_not_mem {s : List String} {x : String} (h : x ∉ s) :
    sadd s x = x :: s := by
  unfold sadd
  rw [if_neg fun hc => h (List.mem_of_elem_eq_true hc)]

theorem countP_lt_of_mem {α : Type} {p q : α → Bool}
    (hpq : ∀ x, p x = true → q x = true) :
    ∀ {l : List α} {a : α}, a ∈ l → q a = true → p a = false →
    List.countP p l < List.countP q l := by
  intro l
  induction l with
  | nil => intro a ha _ _; exact absurd ha (List.not_mem_nil a)
  | cons b rest ih =>
    intro a ha hqa hpa
    rw [List.countP_cons, List.countP_cons]
    have hle : List.countP p rest ≤ List.countP q rest :=
      List.countP_mono_left fun x _ hx => hpq x hx
    rcases List.mem_cons.mp ha with rfl | ha2
    · have h01 : (if p a then (1 : Nat) else 0) < (if q a then 1 else 0) := by
        rw [hpa, hqa]
        simp
      exact add_lt_add_of_le_of_lt hle h01
    · have hb : (if p b then (1 : Nat) else 0) ≤ (if q b then 1 else 0) := by
        by_cases hpb : p b = true
        · simp [hpb, hpq b hpb]
        · simp [hpb]
      exact add_lt_add_of_lt_of_le (ih ha2 hqa hpa) hb

theorem unindexedCount_le {u : List String} {st st2 : TarjanState}
    (h : ∀ k v, List.lookup k st.indices = some v →
      List.lookup k st2.indices = some v) :
    unindexedCount u st2 ≤ unindexedCount u st := by
  unfold unindexedCount
  apply List.countP_mono_left
  intro k _ hk
  cases h0 : List.lookup k st.indices with
  | none => rfl
  | some v =>
    rw [h k v h0] at hk
    exact absurd hk (by simp)

theorem unindexedCount_lt {u : List String} {st st2 : TarjanState}
    {node : String} (hmem : node ∈ u)
    (hmono : ∀ k v, List.lookup k st.indices = some v →
      List.lookup k st2.indices = some v)
    (hnone : List.lookup node st.indices = none)
    (hsome : (List.lookup node st2.indices).isSome = true) :
    unindexedCount u st2 < unindexedCount u st := by
  unfold unindexedCount
  refine countP_lt_of_mem ?_ hmem ?_ ?_
  · intro x hx
    cases h0 : List.lookup x st.indices with
    | none => rfl
    | some v =>
      rw [hmono x v h0] at hx
      exact absurd hx (by simp)
  · rw [hnone]
    rfl
  · cases h0 : List.lookup node st2.indices with
    | none => rw [h0] at hsome; exact absurd hsome (by simp)
    | some v => rfl

theorem lookup_mem_pairs : ∀ {G : Graph} {k : String} {l : List String},
    List.lookup k G = some l → (k, l) ∈ G := by
  intro G
  induction G with
  | nil => intro k l h; exact absurd h (by simp)
  | cons p rest ih =>
    intro k l h
    obtain ⟨k0, l0⟩ := p
    by_cases hk : k = k0
    · subst hk
      simp only [List.lookup, beq_self_eq_true] at h
      simp only [Option.some.injEq] at h
      rw [← h]
      exact List.mem_cons_self _ _
    · have hb : (k == k0) = false := beq_eq_false_iff_ne.mpr hk
      simp only [List.lookup, hb] at h
      exact List.mem_cons_of_mem _ (ih h)

theorem mem_allNodes_key {G : Graph} {k : String} {l : List String}
    (h : (k, l) ∈ G) : k ∈ allNodes G := by
  unfold allNodes
  rw [List.mem_dedup]
  exact List.mem_append_left _ (List.mem_map.mpr ⟨(k, l), h, rfl⟩)

theorem mem_foldr_neighbors {n : String} :
    ∀ {G : Graph} {p : String × List String}, p ∈ G → n ∈ p.2 →
    n ∈ G.foldr (fun (q : String × List String) acc => q.2 ++ acc) [] := by
  intro G
  induction G with
  | nil => intro p hp _; exact absurd hp (List.not_mem_nil p)
  | cons q rest ih =>
    intro p hp hn
    simp only [List.foldr]
    rcases List.mem_cons.mp hp with rfl | hp2
    · exact List.mem_append_left _ hn
    · exact List.mem_append_right _ (ih hp2 hn)

theorem mem_allNodes_neighbor {G : Graph} {k n : String}
    (h : n ∈ (List.lookup k G).getD []) : n ∈ allNodes G := by
  cases hl : List.lookup k G with
  | none => rw [hl] at h; exact absurd h (by simp)
  | some l =>
    rw [hl] at h
    simp only [Option.getD_some] at h
    unfold allNodes
    rw [List.mem_dedup]
    exact List.mem_append_right _ (mem_foldr_neighbors (lookup_mem_pairs hl) h)

theorem edge_of_mem_neighborsSorted {G : Graph} {node n : String}
    (h : n ∈ neighborsSorted G node) : Edge G node n := by
  unfold neighborsSorted at h
  rw [mem_pySorted] at h
  exact List.mem_dedup.mp h

theorem extractLoop_cons_self (root : String) (rest onS acc : List String) :
    extractLoop root (root :: rest) onS acc
      = (rest, sremove onS root, acc ++ [root]) := by
  simp [extractLoop]

theorem vn_acyclic (G : Graph) (hacyc : Acyclic G) (F : Nat)
    (node : String) (idx0 : Nat)
    (sc : String → TarjanState → Except TarjanErr TarjanState)
    (hsc : ∀ (n : String) (stx : TarjanState),
      n ∈ allNodes G →
      List.lookup n stx.indices = none →
      List.lookup n stx.low_link = none →
      stx.on_stack = stx.stack →
      (∀ k, (List.lookup k stx.low_link).isSome = true →
        (List.lookup k stx.indices).isSome = true) →
      (∀ w ∈ stx.stack, (List.lookup w stx.indices).isSome = true) →
      (∀ w ∈ stx.stack, Reaches G w n) →
      unindexedCount (allNodes G) stx < F →
      ∃ stY, sc n stx = .ok stY
        ∧ stY.stack = stx.stack
        ∧ stY.on_stack = stx.on_stack
        ∧ stY.sccs = stx.sccs
        ∧ (∀ k v, List.lookup k stx.indices = some v →
            List.lookup k stY.indices = some v)
        ∧ (∀ k v, List.lookup k stx.low_link = some v →
            List.lookup k stY.low_link = some v)
        ∧ List.lookup n stY.indices = some stx.index
        ∧ List.lookup n stY.low_link = some stx.index
        ∧ (∀ k, (List.lookup k stY.low_link).isSome = true →
            (List.lookup k stY.indices).isSome = true)
        ∧ stx.index ≤ stY.index
        ∧ unindexedCount (allNodes G) stY < unindexedCount (allNodes G) stx) :
    ∀ (ns : List String) (st : TarjanState),
    (∀ n ∈ ns, Edge G node n ∧ n ∈ allNodes G) →
    st.on_stack = st.stack →
    List.lookup node st.indices = some idx0 →
    List.lookup node st.low_link = some idx0 →
    (∀ k, (List.lookup k st.low_link).isSome = true →
      (List.lookup k st.indices).isSome = true) →
    (∀ w ∈ st.stack, (List.lookup w st.indices).isSome = true) →
    (∀ w ∈ st.stack, Reaches G w node) →
    idx0 < st.index →
    unindexedCount (allNodes G) st < F →
    ∃ st2, visitNeighbors sc node ns st = .ok st2
      ∧ st2.stack = st.stack
      ∧ st2.on_stack = st.on_stack
      ∧ st2.sccs = st.sccs
      ∧ (∀ k v, List.lookup k st.indices = some v →
          List.lookup k st2.indices = some v)
      ∧ (∀ k v, List.lookup k st.low_link = some v →
          List.lookup k st2.low_link = some v)
      ∧ (∀ k, (List.lookup k st2.low_link).isSome = true →
          (List.lookup k st2.indices).isSome = true)
      ∧ st.index ≤ st2.index
      ∧ unindexedCount (allNodes G) st2 ≤ unindexedCount (allNodes G) st := by
  intro ns
  induction ns with
  | nil =>
    intro st hns hon hnidx hnll hks hsidx hreach hlt hcnt
    exact ⟨st, rfl, rfl, rfl, rfl, fun k v h => h, fun k v h => h, hks,
      Nat.le_refl _, Nat.le_refl _⟩
  | cons nb rest ih =>
    intro st hns hon hnidx hnll hks hsidx hreach hlt hcnt
    have hnb := hns nb (List.mem_cons_self _ _)
    cases hlk : List.lookup nb st.indices with
    | some i =>
      by_cases hmem : nb ∈ st.on_stack
      · exfalso
        have hnbstack : nb ∈ st.stack := hon ▸ hmem
        exact hacyc node nb hnb.1 (hreach nb hnbstack)
      · have hstep : visitNeighbors sc node (nb :: rest) st
            = visitNeighbors sc node rest st := by
          simp only [visitNeighbors, hlk]
          rw [if_neg hmem]
        rw [hstep]
        exact ih st (fun n hn => hns n (List.mem_cons_of_mem _ hn)) hon hnidx
          hnll hks hsidx hreach hlt hcnt
    | none =>
      have hnll2 : List.lookup nb st.low_link = none := by
        cases h2 : List.lookup nb st.low_link with
        | none => rfl
        | some v =>
          have h3 := hks nb (by rw [h2]; rfl)
          rw [hlk] at h3
          exact absurd h3 (by simp)
      have hreach2 : ∀ w ∈ st.stack, Reaches G w nb := fun w hw =>
        (hreach w hw).trans (Relation.ReflTransGen.single hnb.1)
      obtain ⟨st2, hrun, hstk, hon2, hsccs, hpidx, hpll, hnbidx, hnbll,
        hks2, hidx2, hcnt2⟩ :=
        hsc nb st hnb.2 hlk hnll2 hon hks hsidx hreach2 hcnt
      have hllnode2 : List.lookup node st2.low_link = some idx0 :=
        hpll node idx0 hnll
      have hmin : min (dget st2.low_link node) (dget st2.low_link nb)
          = idx0 := by
        unfold dget
        rw [hllnode2, hnbll]
        simp only [Option.getD_some]
        exact Nat.min_eq_left (Nat.le_of_lt hlt)
      have hdset : dset st2.low_link node
          (min (dget st2.low_link node) (dget st2.low_link nb))
          = st2.low_link := by
        rw [hmin]
        exact dset_self hllnode2
      have hstep : visitNeighbors sc node (nb :: rest) st
          = visitNeighbors sc node rest st2 := by
        simp only [visitNeighbors, hlk, hrun]
        rw [hdset]
      have hnidx2 : List.lookup node st2.indices = some idx0 :=
        hpidx node idx0 hnidx
      have hsidx2 : ∀ w ∈ st2.stack,
          (List.lookup w st2.indices).isSome = true := by
        intro w hw
        rw [hstk] at hw
        have h4 := hsidx w hw
        cases h0 : List.lookup w st.indices with
        | none => rw [h0] at h4; exact absurd h4 (by simp)
        | some v => rw [hpidx w v h0]; rfl
      have hreach3 : ∀ w ∈ st2.stack, Reaches G w node := by
        intro w hw
        rw [hstk] at hw
        exact hreach w hw
      have hon3 : st2.on_stack = st2.stack := by rw [hon2, hstk, hon]
      obtain ⟨st3, hrun3, hstk3, hon3b, hsccs3, hpidx3, hpll3, hks3,
        hidx3, hcnt3⟩ :=
        ih st2 (fun n hn => hns n (List.mem_cons_of_mem _ hn)) hon3 hnidx2
          hllnode2 hks2 hsidx2 hreach3 (lt_of_lt_of_le hlt hidx2)
          (lt_trans hcnt2 hcnt)
      refine ⟨st3, ?_, ?_, ?_, ?_, ?_, ?_, hks3, ?_, ?_⟩
      · rw [hstep]
        exact hrun3
      · rw [hstk3, hstk]
      · rw [hon3b, hon2]
      · rw [hsccs3, hsccs]
      · exact fun k v hkv => hpidx3 k v (hpidx k v hkv)
      · exact fun k v hkv => hpll3 k v (hpll k v hkv)
      · exact le_trans hidx2 hidx3
      · exact le_trans hcnt3 (Nat.le_of_lt hcnt2)

theorem sc_acyclic (G : Graph) (hacyc : Acyclic G) :
    ∀ (fuel : Nat) (node : String) (st : TarjanState),
    node ∈ allNodes G →
    List.lookup node st.indices = none →
    List.lookup node st.low_link = none →
    st.on_stack = st.stack →
    (∀ k, (List.lookup k st.low_link).isSome = true →
      (List.lookup k st.indices).isSome = true) →
    (∀ w ∈ st.stack, (List.lookup w st.indices).isSome = true) →
    (∀ w ∈ st.stack, Reaches G w node) →
    unindexedCount (allNodes G) st < fuel →
    ∃ stY, strongconnect G fuel node st = .ok stY
      ∧ stY.stack = st.stack
      ∧ stY.on_stack = st.on_stack
      ∧ stY.sccs = st.sccs
      ∧ (∀ k v, List.lookup k st.indices = some v →
          List.lookup k stY.indices = some v)
      ∧ (∀ k v, List.lookup k st.low_link = some v →
          List.lookup k stY.low_link = some v)
      ∧ List.lookup node stY.indices = some st.index
      ∧ List.lookup node stY.low_link = some st.index
      ∧ (∀ k, (List.lookup k stY.low_link).isSome = true →
          (List.lookup k stY.indices).isSome = true)
      ∧ st.index ≤ stY.index
      ∧ unindexedCount (allNodes G) stY < unindexedCount (allNodes G) st := by
  intro fuel
  induction fuel with
  | zero =>
    intro node st _ _ _ _ _ _ _ hcnt
    exact absurd hcnt (Nat.not_lt_zero _)
  | succ fuel ih =>
    intro node st hmemN hidxN hllN hon hks hsidx hreach hcnt
    have hnotstack : node ∉ st.stack := by
      intro hmem
      have h4 := hsidx node hmem
      rw [hidxN] at h4
      exact absurd h4 (by simp)
    have hnotonstack : node ∉ st.on_stack := by
      rw [hon]
      exact hnotstack
    have hsadd : sadd st.on_stack node = node :: st.on_stack :=
      sadd_of_not_mem hnotonstack
    have hnidx1 : List.lookup node (dset st.indices node st.index)
        = some st.index := by
      rw [dset_lookup, if_pos rfl]
    have hnll1 : List.lookup node (dset st.low_link node st.index)
        = some st.index := by
      rw [dset_lookup, if_pos rfl]
    have hmono1 : ∀ k v, List.lookup k st.indices = some v →
        List.lookup k (dset st.indices node st.index) = some v := by
      intro k v hkv
      rw [dset_lookup]
      rw [if_neg]
      · exact hkv
      · intro hkn
        rw [hkn, hidxN] at hkv
        exact absurd hkv (by simp)
    have hmono1ll : ∀ k v, List.lookup k st.low_link = some v →
        List.lookup k (dset st.low_link node st.index) = some v := by
      intro k v hkv
      rw [dset_lookup]
      rw [if_neg]
      · exact hkv
      · intro hkn
        rw [hkn, hllN] at hkv
        exact absurd hkv (by simp)
    have hns1 : ∀ n ∈ neighborsSorted G node,
        Edge G node n ∧ n ∈ allNodes G := by
      intro n hn
      have hedge := edge_of_mem_neighborsSorted hn
      exact ⟨hedge, mem_allNodes_neighbor hedge⟩
    have hon1 : sadd st.on_stack node = node :: st.stack := by
      rw [hsadd, hon]
    have hks1 : ∀ k,
        (List.lookup k (dset st.low_link node st.index)).isSome = true →
        (List.lookup k (dset st.indices node st.index)).isSome = true := by
      intro k hk
      rw [dset_lookup] at hk
      rw [dset_lookup]
      by_cases hkn : k = node
      · rw [if_pos hkn]
        rfl
      · rw [if_neg hkn] at hk
        rw [if_neg hkn]
        exact hks k hk
    have hsidx1 : ∀ w ∈ node :: st.stack,
        (List.lookup w (dset st.indices node st.index)).isSome = true := by
      intro w hw
      rw [dset_lookup]
      by_cases hwn : w = node
      · rw [if_pos hwn]
        rfl
      · rw [if_neg hwn]
        rcases List.mem_cons.mp hw with h | h
        · exact absurd h hwn
        · exact hsidx w h
    have hreach1 : ∀ w ∈ node :: st.stack, Reaches G w node := by
      intro w hw
      rcases List.mem_cons.mp hw with rfl | h
      · exact Relation.ReflTransGen.refl
      · exact hreach w h
    have hsome1 : (List.lookup node (dset st.indices node st.index)).isSome
        = true := by
      rw [hnidx1]
      rfl
    have hlt1 : unindexedCount (allNodes G)
        (⟨st.index + 1, dset st.indices node st.index,
          dset st.low_link node st.index, sadd st.on_stack node,
          node :: st.stack, st.sccs⟩ : TarjanState)
        < unindexedCount (allNodes G) st :=
      unindexedCount_lt hmemN hmono1 hidxN hsome1
    have hcnt1 : unindexedCount (allNodes G)
        (⟨st.index + 1, dset st.indices node st.index,
          dset st.low_link node st.index, sadd st.on_stack node,
          node :: st.stack, st.sccs⟩ : TarjanState) < fuel := by
      have h5 : unindexedCount (allNodes G) st < fuel + 1 := hcnt
      omega
    obtain ⟨st2, hrun2, hstk2a, hon2a, hsccs2, hpidx2, hpll2, hks2b,
      hidxle2, hcntle2⟩ :=
      vn_acyclic G hacyc fuel node st.index
        (fun n stx => strongconnect G fuel n stx) ih
        (neighborsSorted G node)
        (⟨st.index + 1, dset st.indices node st.index,
          dset st.low_link node st.index, sadd st.on_stack node,
          node :: st.stack, st.sccs⟩ : TarjanState)
        hns1 hon1 hnidx1 hnll1 hks1 hsidx1 hreach1
        (Nat.lt_succ_self st.index) hcnt1
    have hstk2 : st2.stack = node :: st.stack := hstk2a
    have hon2 : st2.on_stack = node :: st.on_stack := by
      rw [hon2a]
      exact hsadd
    have hn2idx : List.lookup node st2.indices = some st.index :=
      hpidx2 node st.index hnidx1
    have hn2ll : List.lookup node st2.low_link = some st.index :=
      hpll2 node st.index hnll1
    have hcheck : dget st2.low_link node = dget st2.indices node := by
      unfold dget
      rw [hn2idx, hn2ll]
    have hex : extract_scc st2 node
        = .ok ({ st2 with stack := st.stack, on_stack := st.on_stack },
            [node]) := by
      simp only [extract_scc]
      rw [hstk2, hon2, extractLoop_cons_self]
      rw [if_pos (by simp)]
      simp only [sremove, List.erase_cons_head, List.nil_append]
    have hnoself : ¬ (1 < ([node] : List String).length
        ∨ node ∈ (List.lookup node G).getD []) := by
      rintro (h1 | h2)
      · simp at h1
      · exact hacyc node node h2 Relation.ReflTransGen.refl
    have hscrun : strongconnect G (fuel + 1) node st
        = .ok { st2 with stack := st.stack, on_stack := st.on_stack } := by
      simp only [strongconnect]
      simp only [hrun2]
      rw [if_pos hcheck]
      simp only [hex]
      rw [if_neg hnoself]
    refine ⟨{ st2 with stack := st.stack, on_stack := st.on_stack },
      hscrun, rfl, rfl, hsccs2, ?_, ?_, hn2idx, hn2ll, hks2b, ?_, ?_⟩
    · exact fun k v hkv => hpidx2 k v (hmono1 k v hkv)
    · exact fun k v hkv => hpll2 k v (hmono1ll k v hkv)
    · exact le_trans (Nat.le_succ st.index) hidxle2
    · have hceq : unindexedCount (allNodes G)
          { st2 with stack := st.stack, on_stack := st.on_stack }
          = unindexedCount (allNodes G) st2 := rfl
      rw [hceq]
      exact lt_of_le_of_lt hcntle2 hlt1

theorem fcl_acyclic (G : Graph) (hacyc : Acyclic G) (fuel : Nat) :
    ∀ (ps : List (String × List String)) (st : TarjanState),
    (∀ p ∈ ps, p ∈ G) →
    st.on_stack = st.stack →
    (∀ k, (List.lookup k st.low_link).isSome = true →
      (List.lookup k st.indices).isSome = true) →
    (∀ w ∈ st.stack, (List.lookup w st.indices).isSome = true) →
    st.stack = [] →
    unindexedCount (allNodes G) st < fuel →
    ∃ st2, findCyclesLoop G fuel ps st = .ok st2
      ∧ st2.sccs = st.sccs := by
  intro ps
  induction ps with
  | nil =>
    intro st _ _ _ _ _ _
    exact ⟨st, rfl, rfl⟩
  | cons p rest ih =>
    intro st hin hon hks hsidx hstk hcnt
    by_cases hidx : (List.lookup p.1 st.indices).isSome = true
    · have hstep : findCyclesLoop G fuel (p :: rest) st
          = findCyclesLoop G fuel rest st := by
        simp only [findCyclesLoop]
        rw [if_pos hidx]
      rw [hstep]
      exact ih st (fun q hq => hin q (List.mem_cons_of_mem _ hq)) hon hks
        hsidx hstk hcnt
    · have hnone : List.lookup p.1 st.indices = none := by
        cases h0 : List.lookup p.1 st.indices with
        | none => rfl
        | some v => rw [h0] at hidx; exact absurd rfl hidx
      have hllnone : List.lookup p.1 st.low_link = none := by
        cases h0 : List.lookup p.1 st.low_link with
        | none => rfl
        | some v =>
          have h4 := hks p.1 (by rw [h0]; rfl)
          rw [hnone] at h4
          exact absurd h4 (by simp)
      have hmemN : p.1 ∈ allNodes G :=
        mem_allNodes_key (hin p (List.mem_cons_self _ _))
      have hreach0 : ∀ w ∈ st.stack, Reaches G w p.1 := by
        intro w hw
        rw [hstk] at hw
        exact absurd hw (List.not_mem_nil w)
      obtain ⟨st2, hrun, hstk2, hon2, hsccs2, hpidx, hpll, hnidx, hnll,
        hks2, hidxle, hcntlt⟩ :=
        sc_acyclic G hacyc fuel p.1 st hmemN hnone hllnone hon hks hsidx
          hreach0 hcnt
      have hstep : findCyclesLoop G fuel (p :: rest) st
          = findCyclesLoop G fuel rest st2 := by
        simp only [findCyclesLoop]
        rw [if_neg hidx]
        simp only [hrun]
      rw [hstep]
      have hstk2b : st2.stack = [] := by rw [hstk2, hstk]
      have hon2b : st2.on_stack = st2.stack := by
        rw [hon2, hstk2]
        exact hon
      have hsidx2 : ∀ w ∈ st2.stack,
          (List.lookup w st2.indices).isSome = true := by
        intro w hw
        rw [hstk2b] at hw
        exact absurd hw (List.not_mem_nil w)
      obtain ⟨st3, hrun3, hsccs3⟩ :=
        ih st2 (fun q hq => hin q (List.mem_cons_of_mem _ hq)) hon2b hks2
          hsidx2 hstk2b (lt_trans hcntlt hcnt)
      exact ⟨st3, hrun3, by rw [hsccs3, hsccs2]⟩

/-- C8: cycle detection reports exactly the strongly connected components
with more than one member plus single nodes with a self-loop: the two-node
cycle `a→b, b→a` yields (after the deps generator's per-cycle sort) exactly
`[["a", "b"]]`, a single self-loop is reported, and every acyclic directed
graph yields zero cycles. -/
theorem c8_cycle_detection :
    ((find_cycles [("a", ["b"]), ("b", ["a"])]).map deps_sorted_cycles
      = .ok [["a", "b"]])
    ∧ find_cycles [("a", ["a"])] = .ok [["a"]]
    ∧ (∀ (graph : Graph), Acyclic graph → find_cycles graph = .ok []) := by
  refine ⟨by decide, by decide, ?_⟩
  intro graph hacyc
  have h1 : unindexedCount (allNodes graph) initState
      ≤ (allNodes graph).length := by
    unfold unindexedCount
    exact List.countP_le_length _
  have hcnt0 : unindexedCount (allNodes graph) initState
      < tarjanFuel graph := by
    unfold tarjanFuel
    omega
  obtain ⟨st2, hrun, hsccs⟩ :=
    fcl_acyclic graph hacyc (tarjanFuel graph) graph initState
      (fun p hp => hp) rfl
      (by intro k hk; exact absurd hk (by simp [initState]))
      (by intro w hw; exact absurd hw (List.not_mem_nil w))
      rfl hcnt0
  unfold find_cycles
  simp only [hrun]
  rw [hsccs]
  rfl

/-- C8 (witness): the acyclic conjunct applied to the concrete acyclic
graph `a→b` (with `b` a sink), whose acyclicity is established directly. -/
theorem c8_cycle_detection_witness :
    Acyclic [("a", ["b"]), ("b", [])]
    ∧ find_cycles [("a", ["b"]), ("b", [])] = .ok [] := by
  have hacyc : Acyclic [("a", ["b"]), ("b", [])] := by
    intro x y hxy hyx
    have hxay : x = "a" ∧ y = "b" := by
      unfold Edge at hxy
      by_cases hx : x = "a"
      · subst hx
        refine ⟨rfl, ?_⟩
        have h0 : (List.lookup "a"
            [("a", ["b"]), ("b", ([] : List String))]).getD [] = ["b"] := by
          decide
        rw [h0] at hxy
        simpa using hxy
      · exfalso
        by_cases hx2 : x = "b"
        · subst hx2
          have h0 : (List.lookup "b"
              [("a", ["b"]), ("b", ([] : List String))]).getD [] = [] := by
            decide
          rw [h0] at hxy
          exact absurd hxy (List.not_mem_nil y)
        · have h0 : List.lookup x
              [("a", ["b"]), ("b", ([] : List String))] = none := by
            have ha : (x == "a") = false := beq_eq_false_iff_ne.mpr hx
            have hb : (x == "b") = false := beq_eq_false_iff_ne.mpr hx2
            simp only [List.lookup, ha, hb]
          rw [h0] at hxy
          exact absurd hxy (List.not_mem_nil y)
    obtain ⟨rfl, rfl⟩ := hxay
    rcases Relation.ReflTransGen.cases_head hyx with h1 | ⟨c, hc, h2⟩
    · exact absurd h1 (by decide)
    · unfold Edge at hc
      have h0 : (List.lookup "b"
          [("a", ["b"]), ("b", ([] : List String))]).getD [] = [] := by
        decide
      rw [h0] at hc
      exact absurd hc (List.not_mem_nil c)
  exact ⟨hacyc, c8_cycle_detection.2.2 _ hacyc⟩

theorem dropWhile_eq_self_of_all {p : Char → Bool} {l : List Char}
    (h : ∀ c ∈ l, p c = false) : l.dropWhile p = l := by
  cases l with
  | nil => rfl
  | cons c cs =>
    rw [List.dropWhile_cons, if_neg]
    rw [h c (List.mem_cons_self _ _)]
    simp

theorem stripList_eq_self {l : List Char}
    (h : ∀ c ∈ l, c.isWhitespace = false) : stripList l = l := by
  unfold stripList
  rw [dropWhile_eq_self_of_all h]
  rw [dropWhile_eq_self_of_all fun c hc => h c (List.mem_reverse.mp hc)]
  exact List.reverse_reverse l

theorem stripList_angle (xs : List Char) :
    stripList ('<' :: (xs ++ ['>'])) = '<' :: (xs ++ ['>']) := by
  unfold stripList
  rw [List.dropWhile_cons, if_neg (by decide)]
  have hrev : ('<' :: (xs ++ ['>'])).reverse
      = '>' :: (xs.reverse ++ ['<']) := by
    simp [List.reverse_cons, List.reverse_append]
  rw [hrev, List.dropWhile_cons, if_neg (by decide)]
  have hrev2 : ('>' :: (xs.reverse ++ ['<'])).reverse
      = '<' :: (xs ++ ['>']) := by
    simp [List.reverse_cons, List.reverse_append, List.reverse_reverse]
  exact hrev2

theorem pyStrip_placeholder (k : String) :
    pyStrip ("<" ++ k ++ ">") = "<" ++ k ++ ">" := by
  show String.mk (stripList ('<' :: (k.data ++ ['>']))) = "<" ++ k ++ ">"
  rw [stripList_angle]
  rfl

theorem pyStartsWith_placeholder (k : String) :
    pyStartsWith ("<" ++ k ++ ">") "<" = true := by
  show List.isPrefixOf ['<'] ('<' :: (k.data ++ ['>'])) = true
  simp [List.isPrefixOf]

theorem pyEndsWith_placeholder (k : String) :
    pyEndsWith ("<" ++ k ++ ">") ">" = true := by
  show List.isSuffixOf ['>'] ('<' :: (k.data ++ ['>'])) = true
  unfold List.isSuffixOf
  have hrev : ('<' :: (k.data ++ ['>'])).reverse
      = '>' :: (k.data.reverse ++ ['<']) := by
    simp [List.reverse_cons, List.reverse_append]
  rw [hrev]
  simp [List.isPrefixOf]

theorem ws_false_of_identLike {c : Char}
    (h : (c.isAlphanum || c = '_' || c = '.') = true) :
    c.isWhitespace = false := by
  cases hw : c.isWhitespace with
  | false => rfl
  | true =>
    exfalso
    simp only [Char.isWhitespace, Bool.or_eq_true, decide_eq_true_eq] at hw
    rcases hw with ((rfl | rfl) | rfl) | rfl <;> exact absurd h (by decide)

theorem chain_chars {s : String} (h : IsIdentChain s) :
    s.data ≠ []
    ∧ ∀ c ∈ s.data, (c.isAlphanum || c = '_' || c = '.') = true := by
  induction h with
  | single hp =>
    rename_i s0
    unfold plainIdent at hp
    rw [Bool.and_eq_true] at hp
    obtain ⟨hne, hall⟩ := hp
    rw [List.all_eq_true] at hall
    constructor
    · intro hd
      have hs0 : s0 = "" := by
        cases s0 with
        | mk d =>
          simp only at hd
          rw [hd]
      rw [hs0] at hne
      exact absurd hne (by decide)
    · intro c hc
      have h1 := hall c hc
      simp only [Bool.or_eq_true] at h1 ⊢
      tauto
  | dotted hs ht ih =>
    rename_i s0 t0
    obtain ⟨hne, hall⟩ := ih
    unfold plainIdent at ht
    rw [Bool.and_eq_true] at ht
    obtain ⟨hnet, hallt⟩ := ht
    rw [List.all_eq_true] at hallt
    constructor
    · intro hd
      have hd2 : (s0.data ++ ['.']) ++ t0.data = ([] : List Char) := hd
      rcases List.append_eq_nil.mp hd2 with ⟨hd3, _⟩
      rcases List.append_eq_nil.mp hd3 with ⟨_, hd4⟩
      exact absurd hd4 (by simp)
    · intro c hc
      have hc2 : c ∈ (s0.data ++ ['.']) ++ t0.data := hc
      rcases List.mem_append.mp hc2 with hc3 | hc3
      · rcases List.mem_append.mp hc3 with hc4 | hc4
        · exact hall c hc4
        · have hcd : c = '.' := by simpa using hc4
          rw [hcd]
          decide
      · have h1 := hallt c hc3
        simp only [Bool.or_eq_true] at h1 ⊢
        tauto

theorem pyStrip_chain {s : String} (h : IsIdentChain s) : pyStrip s = s := by
  obtain ⟨hne, hall⟩ := chain_chars h
  unfold pyStrip
  rw [stripList_eq_self fun c hc => ws_false_of_identLike (hall c hc)]

theorem pyStartsWith_chain_false {s : String} (h : IsIdentChain s) :
    pyStartsWith s "<" = false := by
  obtain ⟨hne, hall⟩ := chain_chars h
  unfold pyStartsWith
  cases hd : s.data with
  | nil => exact absurd hd hne
  | cons c rest =>
    have hc : (c.isAlphanum || c = '_' || c = '.') = true := by
      apply hall
      rw [hd]
      exact List.mem_cons_self _ _
    have hcne : ('<' == c) = false := by
      rw [beq_eq_false_iff_ne]
      intro he
      rw [← he] at hc
      exact absurd hc (by decide)
    show List.isPrefixOf ['<'] (c :: rest) = false
    simp [List.isPrefixOf, hcne]

theorem placeholder_map_placeholder (ty : String) :
    IsPlaceholder
      ((List.lookup ty placeholder_map).getD ("<" ++ ty ++ ">")) := by
  by_cases h1 : ty = "subscript"
  · subst h1
    exact ⟨"subscript", by decide⟩
  · by_cases h2 : ty = "call"
    · subst h2
      exact ⟨"call", by decide⟩
    · by_cases h3 : ty = "lambda"
      · subst h3
        exact ⟨"lambda", by decide⟩
      · have hl : List.lookup ty placeholder_map = none := by
          unfold placeholder_map
          have e1 : (ty == "subscript") = false := beq_eq_false_iff_ne.mpr h1
          have e2 : (ty == "call") = false := beq_eq_false_iff_ne.mpr h2
          have e3 : (ty == "lambda") = false := beq_eq_false_iff_ne.mpr h3
          simp only [List.lookup, e1, e2, e3]
        rw [hl]
        exact ⟨ty, rfl⟩

theorem normalize_chain_or_placeholder :
    ∀ (fuel : Nat) (cn : Option TSNode), wfNodeF fuel cn = true →
    IsIdentChain (normalize_callee_expr fuel cn)
      ∨ IsPlaceholder (normalize_callee_expr fuel cn) := by
  intro fuel
  induction fuel with
  | zero =>
    intro cn _
    cases cn with
    | none => exact Or.inr ⟨"complex_expr", rfl⟩
    | some n => exact Or.inr ⟨"complex_expr", rfl⟩
  | succ fuel ih =>
    intro cn hwf
    cases cn with
    | none => exact Or.inr ⟨"complex_expr", rfl⟩
    | some n =>
      simp only [wfNodeF, Bool.and_eq_true] at hwf
      obtain ⟨⟨hwid, hwobj⟩, hwattr⟩ := hwf
      by_cases hid : n.ty = "identifier"
      · have hplain : plainIdent (pyStrip n.text) = true := by
          rw [if_pos hid] at hwid
          exact hwid
        have hres : normalize_callee_expr (fuel + 1) (some n)
            = pyStrip n.text := by
          simp only [normalize_callee_expr]
          rw [if_pos hid]
        rw [hres]
        exact Or.inl (IsIdentChain.single hplain)
      · by_cases hattr : n.ty = "attribute"
        · cases hA : n.attr with
          | none =>
            have hres : normalize_callee_expr (fuel + 1) (some n)
                = "<attribute>" := by
              simp only [normalize_callee_expr]
              rw [if_neg hid, if_pos hattr]
              simp only [hA]
            rw [hres]
            exact Or.inr ⟨"attribute", rfl⟩
          | some a =>
            by_cases haid : a.ty = "identifier"
            · rcases ih n.obj hwobj with hchain | hph
              · have hsw : pyStartsWith (normalize_callee_expr fuel n.obj)
                    "<" = false := pyStartsWith_chain_false hchain
                have hplaina : plainIdent (pyStrip a.text) = true := by
                  simp only [hA] at hwattr
                  rw [if_pos haid] at hwattr
                  exact hwattr
                have hres : normalize_callee_expr (fuel + 1) (some n)
                    = pyStrip (normalize_callee_expr fuel n.obj ++ "."
                        ++ pyStrip a.text) := by
                  simp only [normalize_callee_expr]
                  rw [if_neg hid, if_pos hattr]
                  simp only [hA]
                  rw [if_neg fun hne => hne haid]
                  rw [hsw]
                  simp
                rw [hres]
                have hdot : IsIdentChain (normalize_callee_expr fuel n.obj
                    ++ "." ++ pyStrip a.text) :=
                  IsIdentChain.dotted hchain hplaina
                rw [pyStrip_chain hdot]
                exact Or.inl hdot
              · obtain ⟨k, hk⟩ := hph
                have hres : normalize_callee_expr (fuel + 1) (some n)
                    = "<attribute>" := by
                  simp only [normalize_callee_expr]
                  rw [if_neg hid, if_pos hattr]
                  simp only [hA]
                  rw [if_neg fun hne => hne haid]
                  rw [hk, pyStartsWith_placeholder, pyEndsWith_placeholder]
                  simp
                rw [hres]
                exact Or.inr ⟨"attribute", rfl⟩
            · have hres : normalize_callee_expr (fuel + 1) (some n)
                  = "<attribute>" := by
                simp only [normalize_callee_expr]
                rw [if_neg hid, if_pos hattr]
                simp only [hA]
                rw [if_pos haid]
              rw [hres]
              exact Or.inr ⟨"attribute", rfl⟩
        · have hres : normalize_callee_expr (fuel + 1) (some n)
              = (List.lookup n.ty placeholder_map).getD
                  ("<" ++ n.ty ++ ">") := by
            simp only [normalize_callee_expr]
            rw [if_neg hid, if_neg hattr]
          rw [hres]
          exact Or.inr (placeholder_map_placeholder n.ty)

/-- C10: every callee expression the call-site extractor emits is either a
dot-joined chain of plain identifiers or a single placeholder token of the
form `<kind>`; a placeholder never appears as a component inside a dotted
expression — an attribute access whose object normalizes to a placeholder
collapses wholly to `<attribute>` — and every emitted value is already
fixed under the extractor's final `strip`. -/
theorem c10_callee_expr_shape :
    (∀ (fuel : Nat) (cn : Option TSNode), wfNodeF fuel cn = true →
      IsIdentChain (normalize_callee_expr fuel cn)
        ∨ IsPlaceholder (normalize_callee_expr fuel cn))
    ∧ (∀ (fuel : Nat) (n : TSNode), n.ty = "attribute" →
        IsPlaceholder (normalize_callee_expr fuel n.obj) →
        normalize_callee_expr (fuel + 1) (some n) = "<attribute>")
    ∧ (∀ (fuel : Nat) (cn : Option TSNode), wfNodeF fuel cn = true →
        pyStrip (normalize_callee_expr fuel cn)
          = normalize_callee_expr fuel cn) := by
  refine ⟨normalize_chain_or_placeholder, ?_, ?_⟩
  · intro fuel n hty hph
    obtain ⟨k, hk⟩ := hph
    have hid : ¬ n.ty = "identifier" := by
      rw [hty]
      decide
    simp only [normalize_callee_expr]
    rw [if_neg hid, if_pos hty]
    cases hA : n.attr with
    | none => simp only [hA]
    | some a =>
      simp only [hA]
      by_cases haid : a.ty = "identifier"
      · rw [if_neg fun hne => hne haid]
        rw [hk, pyStartsWith_placeholder, pyEndsWith_placeholder]
        simp
      · rw [if_pos haid]
  · intro fuel cn hwf
    rcases normalize_chain_or_placeholder fuel cn hwf with hc | hp
    · exact pyStrip_chain hc
    · obtain ⟨k, hk⟩ := hp
      rw [hk]
      exact pyStrip_placeholder k

/-- C10 (witness): the theorem applied to the concrete callee trees of
`self.bar(...)` (a dotted identifier chain) and `x[0].bar(...)` (an
attribute whose object is a subscript placeholder, collapsing to
`<attribute>`). -/
theorem c10_callee_expr_shape_witness :
    wfNodeF 2 (some (TSNode.mk "attribute" "self.bar"
        (some (TSNode.mk "identifier" "self" none none))
        (some (TSNode.mk "identifier" "bar" none none)))) = true
    ∧ normalize_callee_expr 2 (some (TSNode.mk "attribute" "self.bar"
        (some (TSNode.mk "identifier" "self" none none))
        (some (TSNode.mk "identifier" "bar" none none)))) = "self.bar"
    ∧ (IsIdentChain (normalize_callee_expr 2 (some (TSNode.mk "attribute"
          "self.bar" (some (TSNode.mk "identifier" "self" none none))
          (some (TSNode.mk "identifier" "bar" none none)))))
        ∨ IsPlaceholder (normalize_callee_expr 2 (some (TSNode.mk
          "attribute" "self.bar"
          (some (TSNode.mk "identifier" "self" none none))
          (some (TSNode.mk "identifier" "bar" none none))))))
    ∧ normalize_callee_expr 2 (some (TSNode.mk "attribute" "x[0].bar"
        (some (TSNode.mk "subscript" "x[0]" none none))
        (some (TSNode.mk "identifier" "bar" none none)))) = "<attribute>" :=
  ⟨by decide, by decide,
   c10_callee_expr_shape.1 2 (some (TSNode.mk "attribute" "self.bar"
     (some (TSNode.mk "identifier" "self" none none))
     (some (TSNode.mk "identifier" "bar" none none)))) (by decide),
   c10_callee_expr_shape.2.1 1 (TSNode.mk "attribute" "x[0].bar"
     (some (TSNode.mk "subscript" "x[0]" none none))
     (some (TSNode.mk "identifier" "bar" none none))) (by decide)
     ⟨"subscript", by decide⟩⟩

/-- C2: `path_to_module` silently returns the empty string on all-`__init__`
paths such as `"__init__.py"` and `"src/__init__.py"` — it never raises the
"empty module name" error the claim (and the repository's own test
`test_path_to_module_rejects_empty_module_names`) requires; ordinary paths
map as documented. -/
theorem c2_path_to_module_empty_name :
    path_to_module "__init__.py" = ""
    ∧ path_to_module "src/__init__.py" = ""
    ∧ path_to_module "pkg/__init__.py" = "pkg"
    ∧ path_to_module "pkg/mod.py" = "pkg.mod" := by
  refine ⟨rfl, rfl, ?_, ?_⟩ <;> decide

end Repomap
